import Mathlib

/-!
Verification of the NYCOpportunity/mhfa front-end behaviors against their
natural-language specification.  The JavaScript of `src/js/default.js`
(the `Toggle` and `Icons` classes) and `src/config/slm.js` (`createSlug`)
is shallowly embedded below: DOM elements become records whose attribute
map and class list are modeled by their observation functions, pages are
lists of elements plus the location hash and the focused element, and the
methods of the `Toggle` class become pure state transformers.
-/

namespace MHFA

/--
A JavaScript value as it appears in the settings object handed to the
`Toggle` constructor: the constructor resolves each field with the
truthiness pattern `(s.x) ? s.x : default`, so the model keeps the cases
that pattern distinguishes (undefined, booleans, strings).
-/
inductive JsVal where
  | undef : JsVal
  | vBool : Bool → JsVal
  | vStr : String → JsVal
deriving DecidableEq, Repr

/-- JavaScript truthiness for the modeled values: `undefined` and `false`
are falsy, the empty string is falsy, everything else is truthy. -/
def JsVal.truthy : JsVal → Bool
  | .undef => false
  | .vBool b => b
  | .vStr s => s ≠ ""

/-- JavaScript string coercion of a modeled value, used where the code
hands a settings value to a string-consuming DOM API such as
`classList.toggle` or a property key. -/
def JsVal.toStr : JsVal → String
  | .undef => "undefined"
  | .vBool b => if b then "true" else "false"
  | .vStr s => s

/--
A DOM element.  `eid` stands for the identity of the underlying object
(JavaScript compares elements with `!==`, which is identity).  The
attribute map and the class list are modeled by their observation
functions: `attrs n` is `getAttribute(n)` (`none` for an absent
attribute) and `classes c` is `classList.contains(c)`.
-/
structure Element where
  eid : Nat
  tag : String
  attrs : String → Option String
  classes : String → Bool

/-- `element.getAttribute(n)`. -/
def Element.getAttr (e : Element) (n : String) : Option String := e.attrs n

/-- `element.hasAttribute(n)`. -/
def Element.hasAttr (e : Element) (n : String) : Bool := (e.attrs n).isSome

/-- `element.setAttribute(n, v)`. -/
def Element.setAttr (e : Element) (n v : String) : Element :=
  { e with attrs := fun m => if m = n then some v else e.attrs m }

/-- `element.removeAttribute(n)`. -/
def Element.removeAttr (e : Element) (n : String) : Element :=
  { e with attrs := fun m => if m = n then none else e.attrs m }

/-- `element.classList.contains(c)`. -/
def Element.classContains (e : Element) (c : String) : Bool := e.classes c

/-- `element.classList.toggle(c)`: membership of `c` flips, membership of
every other token is unchanged. -/
def Element.classToggle (e : Element) (c : String) : Element :=
  { e with classes := fun x => if x = c then !(e.classes c) else e.classes x }

/--
The document: its elements in document order, the location hash (written
by `jumpTo` through `history.pushState` and `window.location.hash`) and
the element currently holding focus (written by `target.focus()`).
-/
structure Page where
  elements : List Element
  hash : String
  focused : Option Nat

/-- Look an element up by identity. -/
def Page.find? (p : Page) (i : Nat) : Option Element :=
  p.elements.find? (fun e => e.eid = i)

/-- Apply `f` to the element with identity `i`, leaving the rest of the
document alone. -/
def Page.update (p : Page) (i : Nat) (f : Element → Element) : Page :=
  { p with elements := p.elements.map (fun e => if e.eid = i then f e else e) }

/-- `document.getElementById(i)` (equivalently `querySelector('#' + i)`
for a plain id): the first element in document order whose `id`
attribute is `i`. -/
def Page.getElementById (p : Page) (i : String) : Option Element :=
  p.elements.find? (fun e => e.getAttr "id" = some i)

/-- `document.querySelector(sel)` restricted to same-document fragment
selectors (`#id`), the only selector shape the Toggle target-resolution
rule feeds it.  Other selector strings are out of the model scope and
resolve to nothing. -/
def Page.querySelectorFragment (p : Page) (sel : String) : Option Element :=
  match sel.toList with
  | '#' :: rest => p.getElementById (String.mk rest)
  | _ => none

/-- `document.querySelectorAll('[n="v"]')`: every element whose attribute
`n` has exactly the value `v`, in document order. -/
def Page.queryAllByAttr (p : Page) (n v : String) : List Element :=
  p.elements.filter (fun e => e.getAttr n = some v)

/-- Class-level default selector `Toggle.selector`. -/
def Toggle.selector : String := "[data-js*=\"toggle\"]"

/-- Class-level default namespace `Toggle.namespace`. -/
def Toggle.nameSpace : String := "toggle"

/-- Class-level default hide class `Toggle.inactiveClass`. -/
def Toggle.inactiveClassDefault : String := "hidden"

/-- Class-level default active class `Toggle.activeClass`. -/
def Toggle.activeClassDefault : String := "active"

/-- `Toggle.elAriaRoles`: aria attributes flipped on the toggling element. -/
def Toggle.elAriaRoles : List String := ["aria-pressed", "aria-expanded"]

/-- `Toggle.targetAriaRoles`: aria attributes flipped on the target. -/
def Toggle.targetAriaRoles : List String := ["aria-hidden"]

/-- `Toggle.events`: the delegated event types. -/
def Toggle.events : List String := ["click", "change"]

/--
`Toggle.getTarget(element)`: starting from `target = false`, the code
first overwrites `target` with `document.querySelector(href)` whenever
the trigger has an `href` attribute, and then overwrites it again with
`document.querySelector('#' + ariaControls)` whenever the trigger has an
`aria-controls` attribute.  The result is the identity of the resolved
element, or `none`.
-/
def Toggle.getTarget (p : Page) (e : Element) : Option Nat :=
  let target : Option Nat := none
  let target := if e.hasAttr "href" then
    (p.querySelectorFragment ((e.getAttr "href").getD "")).map (fun el => el.eid)
  else target
  let target := if e.hasAttr "aria-controls" then
    (p.getElementById ((e.getAttr "aria-controls").getD "")).map (fun el => el.eid)
  else target
  target

/--
Target resolution as the spec sentence words it, with the priority the
code actually implements: the `aria-controls` lookup takes priority over
the `href` fragment lookup, because the code overwrites the href result
afterwards.  Written from the amended spec sentence for comparison with
`Toggle.getTarget`, which is written from the source.
-/
def getTargetAmendedSpec (p : Page) (e : Element) : Option Nat :=
  if e.hasAttr "aria-controls" then
    (p.getElementById ((e.getAttr "aria-controls").getD "")).map (fun el => el.eid)
  else if e.hasAttr "href" then
    (p.querySelectorFragment ((e.getAttr "href").getD "")).map (fun el => el.eid)
  else none

/--
`createSlug` from `src/config/slm.js`, first replace: the character class
`[^0-9a-zA-Z - _]` removes every character that is not a digit, an ASCII
letter, a space or an underscore.  Inside the class, ` - ` parses as the
one-character range from space to space, so the hyphen itself is NOT in
the kept set and gets removed.
-/
def slugKeep (c : Char) : Bool :=
  ('0' ≤ c && c ≤ '9') || ('a' ≤ c && c ≤ 'z') || ('A' ≤ c && c ≤ 'Z') ||
    (c = ' ') || (c = '_')

/-- The characters `\s` matches, in the ASCII range the slug pipeline can
encounter. -/
def jsWhitespace (c : Char) : Bool :=
  (c = ' ') || (c = '\t') || (c = '\n') || (c = '\r') ||
    (c.toNat = 11) || (c.toNat = 12)

/-- Worker for `collapseRuns`: the flag records whether the previous
character belonged to a run matched by `pred`. -/
def collapseRunsAux (pred : Char → Bool) (r : Char) : Bool → List Char → List Char
  | _, [] => []
  | inRun, c :: cs =>
    if pred c then
      if inRun then collapseRunsAux pred r true cs
      else r :: collapseRunsAux pred r true cs
    else c :: collapseRunsAux pred r false cs

/-- `.replace(/X+/g, r)` for a one-character-class `X` given by `pred`:
every maximal run of matching characters becomes the single character
`r`. -/
def collapseRuns (pred : Char → Bool) (r : Char) (l : List Char) : List Char :=
  collapseRunsAux pred r false l

/--
`createSlug(s)` from `src/config/slm.js`: lowercase the string, remove
every run of characters outside the kept class, replace every whitespace
run by a single hyphen, and collapse every hyphen run to a single
hyphen.  `Char.toLower` is the ASCII lowercase map, which is what
`String.prototype.toLowerCase` does on the ASCII range relevant here.
-/
def createSlug (s : String) : String :=
  let l := s.toList.map Char.toLower
  let l := l.filter slugKeep
  let l := collapseRuns jsWhitespace '-' l
  let l := collapseRuns (fun c => c = '-') '-' l
  String.mk l

/-- Concrete page for the target-resolution counterexample: a section
with id `a`, a section with id `b`, and a trigger that carries both
`href="#a"` and `aria-controls="b"`. -/
def c1Page : Page :=
  { elements :=
      [ { eid := 0, tag := "A"
        , attrs := fun n =>
            if n = "href" then some "#a"
            else if n = "aria-controls" then some "b"
            else none
        , classes := fun _ => false }
      , { eid := 1, tag := "DIV"
        , attrs := fun n => if n = "id" then some "a" else none
        , classes := fun _ => false }
      , { eid := 2, tag := "DIV"
        , attrs := fun n => if n = "id" then some "b" else none
        , classes := fun _ => false } ]
  , hash := ""
  , focused := none }

/-- The trigger of `c1Page`. -/
def c1Trigger : Element :=
  { eid := 0, tag := "A"
  , attrs := fun n =>
      if n = "href" then some "#a"
      else if n = "aria-controls" then some "b"
      else none
  , classes := fun _ => false }

/-- C1 counterexample: on a trigger carrying both attributes, `getTarget`
returns the element resolved through `aria-controls` (identity 2), not
the element the `href` fragment resolves to (identity 1), so the claimed
href-over-aria-controls priority is false. -/
theorem getTarget_both_attrs_prefers_aria_controls :
    Toggle.getTarget c1Page c1Trigger = some 2 ∧
      (c1Page.querySelectorFragment "#a").map (fun el => el.eid) = some 1 := by
  constructor
  · rfl
  · rfl

/-- C1 amended: target resolution gives `aria-controls` priority over
`href`; the two are equal as functions on every page and trigger. -/
theorem getTarget_eq_amended_spec :
    ∀ (p : Page) (e : Element), Toggle.getTarget p e = getTargetAmendedSpec p e := by
  intro p e
  unfold Toggle.getTarget getTargetAmendedSpec
  by_cases hac : e.hasAttr "aria-controls" = true
  · simp [hac]
  · simp at hac
    by_cases hh : e.hasAttr "href" = true
    · simp [hac, hh]
    · simp at hh
      simp [hac, hh]

/-- Packing a basic-latin code point and reading it back is the identity. -/
theorem char_toNat_ofNat_of_valid (n : Nat) (h : n.isValidChar) :
    (Char.ofNat n).toNat = n := by
  rw [Char.ofNat, dif_pos h]
  simp [Char.ofNatAux, Char.toNat, UInt32.toNat, BitVec.toNat_ofNatLt]

/-- `Char.toLower` is idempotent: lowering an already lowered character
changes nothing. -/
theorem toLower_idem (c : Char) :
    Char.toLower (Char.toLower c) = Char.toLower c := by
  unfold Char.toLower
  by_cases h : c.toNat ≥ 65 ∧ c.toNat ≤ 90
  · rw [if_pos h]
    have hv : (c.toNat + 32).isValidChar := by
      left
      omega
    have ht : (Char.ofNat (c.toNat + 32)).toNat = c.toNat + 32 :=
      char_toNat_ofNat_of_valid _ hv
    rw [if_neg]
    rw [ht]
    omega
  · rw [if_neg h, if_neg h]

/-- Every character of a collapsed list is either the replacement
character or a character of the input that the predicate does not
match. -/
theorem mem_collapseRunsAux (pred : Char → Bool) (r : Char) :
    ∀ (l : List Char) (b : Bool) (c : Char), c ∈ collapseRunsAux pred r b l →
      c = r ∨ (c ∈ l ∧ pred c = false) := by
  intro l
  induction l with
  | nil => intro b c h; simp [collapseRunsAux] at h
  | cons a l ih =>
    intro b c h
    unfold collapseRunsAux at h
    by_cases hp : pred a = true
    · rw [if_pos hp] at h
      cases b with
      | true =>
        rw [if_pos rfl] at h
        rcases ih true c h with h1 | ⟨h1, h2⟩
        · exact Or.inl h1
        · exact Or.inr ⟨List.mem_cons_of_mem a h1, h2⟩
      | false =>
        rw [if_neg (by simp)] at h
        rw [List.mem_cons] at h
        rcases h with h1 | h1
        · exact Or.inl h1
        · rcases ih true c h1 with h2 | ⟨h2, h3⟩
          · exact Or.inl h2
          · exact Or.inr ⟨List.mem_cons_of_mem a h2, h3⟩
    · rw [if_neg hp] at h
      rw [List.mem_cons] at h
      rcases h with h1 | h1
      · subst h1
        exact Or.inr ⟨List.mem_cons_self c l, by simpa using hp⟩
      · rcases ih false c h1 with h2 | ⟨h2, h3⟩
        · exact Or.inl h2
        · exact Or.inr ⟨List.mem_cons_of_mem a h2, h3⟩

/-- Collapsing runs is the identity on a list in which no character
matches the predicate. -/
theorem collapseRunsAux_id (pred : Char → Bool) (r : Char) :
    ∀ (l : List Char), (∀ c ∈ l, pred c = false) →
      collapseRunsAux pred r false l = l := by
  intro l
  induction l with
  | nil => intro _; rfl
  | cons a l ih =>
    intro h
    unfold collapseRunsAux
    rw [if_neg (by simp [h a (List.mem_cons_self a l)])]
    rw [ih (fun c hc => h c (List.mem_cons_of_mem a hc))]

/-- Mapping a function that fixes every member of a list is the
identity. -/
theorem map_id_of_mem {α : Type} {l : List α} (f : α → α)
    (h : ∀ c ∈ l, f c = c) : l.map f = l := by
  induction l with
  | nil => rfl
  | cons a l ih =>
    rw [List.map_cons, h a (List.mem_cons_self a l),
      ih (fun c hc => h c (List.mem_cons_of_mem a hc))]

/-- Two filters agreeing on every member of a list filter it alike. -/
theorem filter_congr_of_mem {α : Type} {l : List α} (p q : α → Bool)
    (h : ∀ c ∈ l, p c = q c) : l.filter p = l.filter q := by
  induction l with
  | nil => rfl
  | cons a l ih =>
    have ha := h a (List.mem_cons_self a l)
    have hl := ih (fun c hc => h c (List.mem_cons_of_mem a hc))
    by_cases hp : p a = true
    · rw [List.filter_cons_of_pos hp, List.filter_cons_of_pos (ha ▸ hp), hl]
    · rw [List.filter_cons_of_neg (by simpa using hp),
        List.filter_cons_of_neg (by simp [← ha]; simpa using hp), hl]

/-- Shape of every character `createSlug` can output: the hyphen the
whitespace collapse writes, or a kept, non-whitespace character that was
produced by the lowercase map. -/
def slugChar (c : Char) : Prop :=
  c = '-' ∨ (slugKeep c = true ∧ jsWhitespace c = false ∧ ∃ d, c = Char.toLower d)

/-- Every character of a `createSlug` output satisfies `slugChar`. -/
theorem slugChar_of_mem_createSlug (s : String) :
    ∀ c ∈ (createSlug s).toList, slugChar c := by
  intro c hc
  have h4 := mem_collapseRunsAux (fun c => c = '-') '-' _ false c hc
  rcases h4 with h4 | ⟨h4, _⟩
  · exact Or.inl h4
  · have h3 := mem_collapseRunsAux jsWhitespace '-' _ false c h4
    rcases h3 with h3 | ⟨h3, hws⟩
    · exact Or.inl h3
    · rw [List.mem_filter] at h3
      rcases h3 with ⟨h2, hkeep⟩
      rw [List.mem_map] at h2
      rcases h2 with ⟨d, _, hd⟩
      exact Or.inr ⟨hkeep, hws, d, hd.symm⟩

/-- C3 counterexample: `createSlug` maps the spec example to
`help-with-anxiety`, but a second application strips the hyphens, so
`createSlug` is not idempotent. -/
theorem createSlug_not_idempotent :
    createSlug "Help With Anxiety" = "help-with-anxiety" ∧
      createSlug (createSlug "Help With Anxiety") = "helpwithanxiety" ∧
      createSlug (createSlug "Help With Anxiety") ≠ createSlug "Help With Anxiety" := by
  refine ⟨by decide, by decide, by decide⟩

/-- On a string all of whose characters satisfy `slugChar`, `createSlug`
reduces to the removal of hyphens. -/
theorem createSlug_of_slugChars (y : String) (hchars : ∀ c ∈ y.toList, slugChar c) :
    createSlug y = String.mk (y.toList.filter (fun c => c != '-')) := by
  have hmap : ∀ c ∈ y.toList, Char.toLower c = c := by
    intro c hc
    rcases hchars c hc with h | ⟨_, _, d, hd⟩
    · subst h
      decide
    · rw [hd]
      exact toLower_idem d
  have hfilter : ∀ c ∈ y.toList, slugKeep c = (c != '-') := by
    intro c hc
    rcases hchars c hc with h | ⟨hk, _, _⟩
    · subst h
      decide
    · have hne : c ≠ '-' := by
        intro h
        rw [h] at hk
        exact absurd hk (by decide)
      rw [hk]
      symm
      simpa [bne_iff_ne] using hne
  unfold createSlug
  show String.mk (collapseRuns (fun c => decide (c = '-')) '-'
      (collapseRuns jsWhitespace '-'
        (List.filter slugKeep (y.toList.map Char.toLower)))) = _
  rw [map_id_of_mem Char.toLower hmap]
  rw [filter_congr_of_mem slugKeep (fun c => c != '-') hfilter]
  have hz : ∀ c ∈ y.toList.filter (fun c => c != '-'), c ∈ y.toList ∧ c ≠ '-' := by
    intro c hc
    rw [List.mem_filter] at hc
    exact ⟨hc.1, by simpa using hc.2⟩
  have h3 : collapseRuns jsWhitespace '-' (List.filter (fun c => c != '-') y.toList)
      = List.filter (fun c => c != '-') y.toList :=
    collapseRunsAux_id jsWhitespace '-' _ (by
      intro c hc
      rcases hz c hc with ⟨hcy, hne⟩
      rcases hchars c hcy with h | ⟨_, hw, _⟩
      · exact absurd h hne
      · exact hw)
  have h4 : collapseRuns (fun c => decide (c = '-')) '-'
        (List.filter (fun c => c != '-') y.toList)
      = List.filter (fun c => c != '-') y.toList :=
    collapseRunsAux_id _ '-' _ (by
      intro c hc
      rcases hz c hc with ⟨_, hne⟩
      simpa using hne)
  rw [h3, h4]

/-- C3 amended: a second application of `createSlug` is exactly the
removal of the hyphens the first application introduced, because the kept
character class of the first replace does not contain the hyphen.
Consequently `createSlug` is idempotent precisely on the inputs whose
slug contains no hyphen. -/
theorem createSlug_second_application_strips_hyphens (s : String) :
    createSlug (createSlug s) =
      String.mk ((createSlug s).toList.filter (fun c => c != '-')) :=
  createSlug_of_slugChars (createSlug s) (slugChar_of_mem_createSlug s)

/-- How the single `fetch(path)` of the `Icons` constructor can end. -/
inductive FetchResult where
  | ok : String → FetchResult
  | notOk : FetchResult
  | networkError : FetchResult
deriving DecidableEq, Repr

/-- The hidden container div the `Icons` constructor builds: its
`innerHTML`, its `aria-hidden` attribute (`setAttribute` stringifies the
boolean `true`) and its inline style. -/
structure Sprite where
  innerHTML : String
  ariaHidden : String
  style : String
deriving DecidableEq, Repr

/-- Observable outcome of constructing `Icons`: how many `console.dir`
diagnostics were emitted and which elements were appended to
`document.body`. -/
structure IconsResult where
  logs : Nat
  appendedToBody : List Sprite
deriving DecidableEq, Repr

/-- `Icons.path`, the default sprite path. -/
def Icons.path : String := "svg/icons.svg"

/--
The promise chain of the `Icons` constructor
(`src/js/default.js` lines 427-451).  The first `then` returns
`response.text()` when `response.ok` and otherwise logs the response and
returns `undefined`; the `catch` logs a network failure and returns
`undefined`; the second `then` runs in every case and appends a hidden
div whose `innerHTML` is the resolved `data` - the string rendering
`undefined` when the chain resolved to `undefined`.
-/
def Icons.construct (res : FetchResult) : IconsResult :=
  let data : Option String :=
    match res with
    | .ok body => some body
    | .notOk => none
    | .networkError => none
  let logs : Nat :=
    match res with
    | .ok _ => 0
    | .notOk => 1
    | .networkError => 1
  { logs := logs
  , appendedToBody :=
      [ { innerHTML := match data with | some s => s | none => "undefined"
        , ariaHidden := "true"
        , style := "display: none;" } ] }

/-- C2: on a non-OK response and on a network failure the constructor
does log a diagnostic, but the final `then` of the chain still runs with
an undefined payload, so a hidden div whose `innerHTML` is the string
rendering of `undefined` is appended to the document body - the claimed
absence of injection is violated by the code. -/
theorem icons_failure_still_appends :
    (Icons.construct .notOk).logs = 1 ∧
      (Icons.construct .networkError).logs = 1 ∧
      (Icons.construct .notOk).appendedToBody =
        [{ innerHTML := "undefined", ariaHidden := "true", style := "display: none;" }] ∧
      (Icons.construct .networkError).appendedToBody ≠ [] := by
  refine ⟨rfl, rfl, rfl, by decide⟩

/--
The caller-supplied settings object `s` of the `Toggle` constructor.
String-valued fields are arbitrary JavaScript values resolved by
truthiness; `focusable` and `jump` are resolved by `hasOwnProperty`, so
they are `Option Bool` (`none` when the property is absent); `element`
is an optional element reference.  The function-valued fields (`before`,
`after`, `valid`) are passed to the operations as explicit parameters
below, because a Lean structure cannot contain functions over the state
type that contains it.
-/
structure SettingsInput where
  selector : JsVal
  nameSpace : JsVal
  inactiveClass : JsVal
  activeClass : JsVal
  focusable : Option Bool
  jump : Option Bool
  element : Option Nat
deriving DecidableEq, Repr

/-- The resolution pattern `(v) ? v : dflt` of the constructor. -/
def resolveJs (v : JsVal) (dflt : String) : JsVal :=
  if v.truthy then v else .vStr dflt

/-- The resolved `this.settings` record built by the constructor. -/
structure Settings where
  selector : JsVal
  nameSpace : JsVal
  inactiveClass : JsVal
  activeClass : JsVal
  focusable : Bool
  jump : Bool
deriving DecidableEq, Repr

/-- The settings resolution of the `Toggle` constructor
(`src/js/default.js` lines 31-41). -/
def buildSettings (s : SettingsInput) : Settings :=
  { selector := resolveJs s.selector Toggle.selector
  , nameSpace := resolveJs s.nameSpace Toggle.nameSpace
  , inactiveClass := resolveJs s.inactiveClass Toggle.inactiveClassDefault
  , activeClass := resolveJs s.activeClass Toggle.activeClassDefault
  , focusable := s.focusable.getD true
  , jump := s.jump.getD true }

/--
A `Toggle` instance: the settings plus the transient per-event scratch
references the methods store on `this` (`element`, `target`, `others`,
`focusable`), held as element identities.
-/
structure ToggleState where
  settings : Settings
  element : Option Nat
  target : Option Nat
  others : List Nat
  focusable : List Nat

/--
The process-wide state the constructor touches: whether
`window[Toggle.callback]` exists, the selector keys recorded in it, the
delegated `(event type, selector)` listeners attached to the document
body, and the elements carrying a direct click listener
(single-element mode).
-/
structure GlobalState where
  hasRegistry : Bool
  registry : List String
  listeners : List (String × String)
  directListeners : List Nat
deriving DecidableEq, Repr

/-- First statement of the constructor: create the callback registry on
the window when it does not exist yet. -/
def Toggle.ensureRegistry (g : GlobalState) : GlobalState :=
  if !g.hasRegistry then { g with hasRegistry := true, registry := [] } else g

/-- Listener attachment of the constructor: element mode attaches a
direct click listener; otherwise one delegated listener per event type
is attached to the body unless the selector is already registered. -/
def Toggle.attachListeners (g : GlobalState) (selKey : String)
    (element : Option Nat) : GlobalState :=
  match element with
  | some eid => { g with directListeners := g.directListeners ++ [eid] }
  | none =>
      if !(g.registry.contains selKey) then
        { g with listeners := g.listeners ++ Toggle.events.map (fun ev => (ev, selKey)) }
      else g

/-- Final statement of the constructor: record that a toggle using this
selector has been instantiated. -/
def Toggle.recordSelector (g : GlobalState) (selKey : String) : GlobalState :=
  { g with registry :=
      if g.registry.contains selKey then g.registry else g.registry ++ [selKey] }

/--
The `Toggle` constructor (`src/js/default.js` lines 24-81): create the
registry if absent, resolve the settings, and either attach a direct
click listener (element mode) or attach one delegated listener per event
type unless the selector is already registered; finally record the
selector key in the registry.
-/
def Toggle.construct (g : GlobalState) (s : SettingsInput) : GlobalState × ToggleState :=
  let settings := buildSettings s
  let selKey := settings.selector.toStr
  (Toggle.recordSelector
      (Toggle.attachListeners (Toggle.ensureRegistry g) selKey s.element) selKey,
    { settings := settings, element := s.element
    , target := none, others := [], focusable := [] })

/-- A list in which no value appears twice holds any value at most once. -/
theorem count_le_one_of_nodup {α : Type} [BEq α] [LawfulBEq α] :
    ∀ {l : List α}, l.Nodup → ∀ (a : α), l.count a ≤ 1 := by
  intro l
  induction l with
  | nil => intro _ a; simp
  | cons b l ih =>
    intro h a
    rcases List.nodup_cons.mp h with ⟨hb, hl⟩
    by_cases hba : b = a
    · subst hba
      rw [List.count_cons_self, List.count_eq_zero_of_not_mem hb]
    · rw [List.count_cons_of_ne (fun h => hba h.symm)]
      exact ih hl a

/-- Invariant of the process-wide toggle state: without the registry no
delegated listener exists, every delegated listener is for a registered
selector, and no `(event type, selector)` pair is attached twice. -/
def RegistryInv (g : GlobalState) : Prop :=
  (g.hasRegistry = false → g.listeners = []) ∧
    (∀ pr ∈ g.listeners, pr.2 ∈ g.registry) ∧ g.listeners.Nodup

/-- Membership reading of `List.contains` on strings. -/
theorem contains_true_iff_mem {l : List String} {a : String} :
    l.contains a = true ↔ a ∈ l := by
  simp [List.contains, List.elem_iff]

/-- C7: construction without the element option records the selector in
the registry, preserves the registry invariant (hence keeps at most one
delegated listener per event type and selector), and attaches no
listener at all when the selector is already registered. -/
theorem construct_registers_selector_once (g : GlobalState) (s : SettingsInput)
    (hinv : RegistryInv g) (helem : s.element = none) :
    RegistryInv (Toggle.construct g s).1 ∧
      (buildSettings s).selector.toStr ∈ (Toggle.construct g s).1.registry ∧
      (g.hasRegistry = true → (buildSettings s).selector.toStr ∈ g.registry →
        (Toggle.construct g s).1.listeners = g.listeners) ∧
      ∀ pr : String × String, (Toggle.construct g s).1.listeners.count pr ≤ 1 := by
  rcases hinv with ⟨hreg, hmem, hnodup⟩
  set key := (buildSettings s).selector.toStr with hkey
  have hrepr : (Toggle.construct g s).1
      = Toggle.recordSelector
          (Toggle.attachListeners (Toggle.ensureRegistry g) key s.element) key := rfl
  rw [hrepr, helem]
  obtain ⟨hr, reg, lst, dir⟩ := g
  cases hr with
  | false =>
    have hlist : lst = [] := hreg rfl
    subst hlist
    have h2 : Toggle.recordSelector (Toggle.attachListeners (Toggle.ensureRegistry
        ⟨false, reg, [], dir⟩) key none) key
        = ⟨true, [key], Toggle.events.map (fun ev => (ev, key)), dir⟩ := rfl
    rw [h2]
    have hnodup2 : (Toggle.events.map (fun ev => (ev, key))).Nodup := by
      simp [Toggle.events]
    refine ⟨⟨?_, ?_, ?_⟩, ?_, ?_, ?_⟩
    · intro h
      simp at h
    · intro pr hpr
      simp [Toggle.events] at hpr
      rcases hpr with h | h <;> simp [h]
    · exact hnodup2
    · simp
    · intro h
      simp at h
    · intro pr
      exact count_le_one_of_nodup hnodup2 pr
  | true =>
    have hens : Toggle.ensureRegistry ⟨true, reg, lst, dir⟩ = ⟨true, reg, lst, dir⟩ := rfl
    rw [hens]
    by_cases hkm : key ∈ reg
    · have hcont : reg.contains key = true := contains_true_iff_mem.mpr hkm
      have h2 : Toggle.attachListeners ⟨true, reg, lst, dir⟩ key none
          = ⟨true, reg, lst, dir⟩ := by
        unfold Toggle.attachListeners
        rw [hcont]
        rfl
      rw [h2]
      have h3 : Toggle.recordSelector ⟨true, reg, lst, dir⟩ key
          = ⟨true, reg, lst, dir⟩ := by
        unfold Toggle.recordSelector
        rw [hcont]
        rfl
      rw [h3]
      exact ⟨⟨hreg, hmem, hnodup⟩, hkm, fun _ _ => rfl,
        fun pr => count_le_one_of_nodup hnodup pr⟩
    · have hcont : reg.contains key = false := by
        cases hc : reg.contains key
        · rfl
        · exact absurd (contains_true_iff_mem.mp hc) hkm
      have h2 : Toggle.attachListeners ⟨true, reg, lst, dir⟩ key none
          = ⟨true, reg, lst ++ Toggle.events.map (fun ev => (ev, key)), dir⟩ := by
        unfold Toggle.attachListeners
        rw [hcont]
        rfl
      rw [h2]
      have h3 : Toggle.recordSelector
            ⟨true, reg, lst ++ Toggle.events.map (fun ev => (ev, key)), dir⟩ key
          = ⟨true, reg ++ [key], lst ++ Toggle.events.map (fun ev => (ev, key)), dir⟩ := by
        unfold Toggle.recordSelector
        rw [hcont]
        rfl
      rw [h3]
      have hnodup2 : (lst ++ Toggle.events.map (fun ev => (ev, key))).Nodup := by
        rw [List.nodup_append]
        refine ⟨hnodup, by simp [Toggle.events], ?_⟩
        intro pr hpr hpr2
        simp [Toggle.events] at hpr2
        have hsel := hmem pr hpr
        rcases hpr2 with h | h <;> rw [h] at hsel <;> exact hkm hsel
      refine ⟨⟨?_, ?_, ?_⟩, ?_, ?_, ?_⟩
      · intro h
        simp at h
      · intro pr hpr
        rcases List.mem_append.mp hpr with h | h
        · exact List.mem_append_left _ (hmem pr h)
        · simp [Toggle.events] at h
          rcases h with h | h <;> simp [h]
      · exact hnodup2
      · simp
      · intro _ h
        exact absurd h hkm
      · intro pr
        exact count_le_one_of_nodup hnodup2 pr

/-- C10: a falsy `activeClass` override falls back to the class default
`active`, and, independently, a falsy `inactiveClass` override falls
back to `hidden`: each fallback depends only on its own field. -/
theorem falsy_class_overrides_fall_back (g : GlobalState) (s : SettingsInput) :
    (s.activeClass.truthy = false →
      (Toggle.construct g s).2.settings.activeClass = .vStr "active") ∧
    (s.inactiveClass.truthy = false →
      (Toggle.construct g s).2.settings.inactiveClass = .vStr "hidden") := by
  have hset : (Toggle.construct g s).2.settings = buildSettings s := rfl
  constructor
  · intro ha
    rw [hset]
    have h1 : (buildSettings s).activeClass
        = resolveJs s.activeClass Toggle.activeClassDefault := rfl
    rw [h1]
    unfold resolveJs
    rw [ha]
    rfl
  · intro hi
    rw [hset]
    have h1 : (buildSettings s).inactiveClass
        = resolveJs s.inactiveClass Toggle.inactiveClassDefault := rfl
    rw [h1]
    unfold resolveJs
    rw [hi]
    rfl

/-- Concrete constructor input for the witnesses: both class overrides
falsy, no element. -/
def falsyInput : SettingsInput :=
  { selector := .undef, nameSpace := .undef
  , inactiveClass := .vStr "", activeClass := .vBool false
  , focusable := none, jump := none, element := none }

/-- An empty process-wide state. -/
def emptyGlobal : GlobalState :=
  { hasRegistry := false, registry := [], listeners := [], directListeners := [] }

/-- Constructor input exercising the fallbacks independently: the
active class override is a truthy custom string while the inactive
class override is falsy. -/
def mixedInput : SettingsInput :=
  { selector := .undef, nameSpace := .undef
  , inactiveClass := .vBool false, activeClass := .vStr "open"
  , focusable := none, jump := none, element := none }

/-- Witness for C10: the falsy overrides of `falsyInput` each fall back,
and on `mixedInput` the inactive fallback fires while the truthy active
override is kept - the two fallbacks are independent. -/
theorem falsy_class_overrides_fall_back_witness :
    falsyInput.activeClass.truthy = false ∧
      (Toggle.construct emptyGlobal falsyInput).2.settings.activeClass = .vStr "active" ∧
      (Toggle.construct emptyGlobal falsyInput).2.settings.inactiveClass = .vStr "hidden" ∧
      mixedInput.activeClass.truthy = true ∧
      mixedInput.inactiveClass.truthy = false ∧
      (Toggle.construct emptyGlobal mixedInput).2.settings.inactiveClass = .vStr "hidden" ∧
      (Toggle.construct emptyGlobal mixedInput).2.settings.activeClass = .vStr "open" := by
  refine ⟨by decide, ?_, ?_, by decide, by decide, ?_, by decide⟩
  · exact (falsy_class_overrides_fall_back emptyGlobal falsyInput).1 (by decide)
  · exact (falsy_class_overrides_fall_back emptyGlobal falsyInput).2 (by decide)
  · exact (falsy_class_overrides_fall_back emptyGlobal mixedInput).2 (by decide)

/-- Witness for C7: a second construction with the already-registered
default selector attaches no further delegated listener. -/
theorem construct_registers_selector_once_witness :
    (Toggle.construct (Toggle.construct emptyGlobal falsyInput).1 falsyInput).1.listeners =
      (Toggle.construct emptyGlobal falsyInput).1.listeners := by
  have h1 := construct_registers_selector_once emptyGlobal falsyInput
    (by refine ⟨fun _ => rfl, ?_, ?_⟩ <;> simp [emptyGlobal]) rfl
  have h2 := construct_registers_selector_once (Toggle.construct emptyGlobal falsyInput).1
    falsyInput h1.1 rfl
  exact h2.2.2.1 (by decide) (by decide)

/-- `Toggle.elFocusable`: the focusable-descendant allowlist the `toggle`
method queries inside the target. -/
def Toggle.elFocusable : List String :=
  [ "a", "button", "input", "select", "textarea", "object", "embed", "form"
  , "fieldset", "legend", "label", "area", "audio", "video", "iframe", "svg"
  , "details", "table", "[tabindex]", "[contenteditable]", "[usemap]" ]

/--
The `valid` guard of the settings: it receives `this` (the instance,
through which the live document is reachable) and returns a boolean.  It
is modeled as a pure predicate; a guard that also mutates state performs
its own side effects, which are outside the transition the claims are
about.
-/
def Guard : Type := ToggleState → Page → Bool

/--
The `before` and `after` hooks of the settings.  They receive `this`;
the model scopes them to transformers of the document, which is the
state the toggling pipeline itself reads and writes.
-/
def Hook : Type := Page → Page

/-- `element.getAttribute(n)` for the element with identity `i`, read
from the live document. -/
def Page.attrAt (p : Page) (i : Nat) (n : String) : Option String :=
  (p.find? i).bind (fun e => e.getAttr n)

/-- `element.classList.contains(c)` for the element with identity `i`. -/
def Page.hasClassAt (p : Page) (i : Nat) (c : String) : Bool :=
  match p.find? i with
  | some e => e.classContains c
  | none => false

/--
`Toggle.getOthers(element)` (`src/js/default.js` lines 200-210): all
elements sharing the trigger's `href` value, else all elements sharing
its `aria-controls` value, else none.
-/
def Toggle.getOthers (p : Page) (e : Element) : List Nat :=
  if e.hasAttr "href" then
    (p.queryAllByAttr "href" ((e.getAttr "href").getD "")).map (fun el => el.eid)
  else if e.hasAttr "aria-controls" then
    (p.queryAllByAttr "aria-controls" ((e.getAttr "aria-controls").getD "")).map
      (fun el => el.eid)
  else []

/-- `getOthers` applied to the element with identity `i`. -/
def Toggle.othersOf (p : Page) (i : Nat) : List Nat :=
  match p.find? i with
  | some e => Toggle.getOthers p e
  | none => []

/-- The first statements of `elementToggle`: store the element, the
target, the other toggles and the focusable children on the instance,
before the `valid` guard is consulted. -/
def Toggle.scratchUpdate (inst : ToggleState) (p : Page) (elemId targetId : Nat)
    (foc : List Nat) : ToggleState :=
  { inst with
      element := some elemId
      target := some targetId
      others := Toggle.othersOf p elemId
      focusable := foc }

/-- `elementToggle` class toggling: when `activeClass` is truthy, toggle
it on the element, the target and every other toggle that is not the
element itself. -/
def Toggle.classStep (st : Settings) (p : Page) (elemId targetId : Nat)
    (others : List Nat) : Page :=
  if st.activeClass.truthy then
    let cls := st.activeClass.toStr
    let p1 := p.update elemId (fun el => el.classToggle cls)
    let p2 := p1.update targetId (fun el => el.classToggle cls)
    others.foldl (fun q oid =>
      if oid ≠ elemId then q.update oid (fun el => el.classToggle cls) else q) p2
  else p

/-- `elementToggle` inactive-class toggling on the target only. -/
def Toggle.inactiveStep (st : Settings) (p : Page) (targetId : Nat) : Page :=
  if st.inactiveClass.truthy then
    p.update targetId (fun el => el.classToggle st.inactiveClass.toStr)
  else p

/-- One iteration of the target aria loop: read the attribute, and when
it is a non-empty string, write the string `false` for `true` and the
string `true` otherwise. -/
def Toggle.targetAriaFlip (p : Page) (targetId : Nat) (attr : String) : Page :=
  match p.attrAt targetId attr with
  | some v =>
      if v ≠ "" then
        p.update targetId
          (fun el => el.setAttr attr (if v = "true" then "false" else "true"))
      else p
  | none => p

/-- The target aria loop of `elementToggle` over `Toggle.targetAriaRoles`. -/
def Toggle.targetAriaStep (p : Page) (targetId : Nat) : Page :=
  Toggle.targetAriaRoles.foldl (fun q attr => Toggle.targetAriaFlip q targetId attr) p

/-- One iteration of `toggleFocusable`: an element at tabindex `-1` is
restored to its data-attribute default (or loses the attribute), any
other element is pushed to tabindex `-1`. -/
def Toggle.toggleFocusableStep (p : Page) (i : Nat) : Page :=
  let tabindex := p.attrAt i "tabindex"
  if tabindex = some "-1" then
    match p.attrAt i ("data-" ++ Toggle.nameSpace ++ "-tabindex") with
    | some v =>
        if v ≠ "" then p.update i (fun el => el.setAttr "tabindex" v)
        else p.update i (fun el => el.removeAttr "tabindex")
    | none => p.update i (fun el => el.removeAttr "tabindex")
  else
    p.update i (fun el => el.setAttr "tabindex" "-1")

/-- `Toggle.toggleFocusable(elements)` (`src/js/default.js` lines
221-240). -/
def Toggle.toggleFocusable (p : Page) (els : List Nat) : Page :=
  els.foldl Toggle.toggleFocusableStep p

/-- `Toggle.jumpTo(element, target)` (`src/js/default.js` lines
251-268): clear the fragment through `history.pushState`; when the
target is active set the fragment to the trigger's `href`, give the
target tabindex `0` and focus it, otherwise remove its tabindex. -/
def Toggle.jumpTo (st : Settings) (p : Page) (elemId targetId : Nat) : Page :=
  let p1 : Page := { p with hash := "" }
  match p1.find? targetId with
  | some t =>
      if t.classContains st.activeClass.toStr then
        let p2 : Page := { p1 with hash := (p1.attrAt elemId "href").getD "" }
        let p3 := p2.update targetId (fun el => el.setAttr "tabindex" "0")
        { p3 with focused := some targetId }
      else
        p1.update targetId (fun el => el.removeAttr "tabindex")
  | none => p1

/-- One iteration of the element aria loop: flip the element's own
attribute when it is a non-empty string, then write the same flipped
value (computed from the element's value) to every other toggle whose
attribute is a non-empty string. -/
def Toggle.elAriaFlip (p : Page) (elemId : Nat) (others : List Nat)
    (attr : String) : Page :=
  let value := p.attrAt elemId attr
  let flipped := if value = some "true" then "false" else "true"
  let p1 :=
    match value with
    | some v => if v ≠ "" then p.update elemId (fun el => el.setAttr attr flipped) else p
    | none => p
  others.foldl (fun q oid =>
    if oid ≠ elemId then
      match q.attrAt oid attr with
      | some ov => if ov ≠ "" then q.update oid (fun el => el.setAttr attr flipped) else q
      | none => q
    else q) p1

/-- The element aria loop of `elementToggle` over `Toggle.elAriaRoles`. -/
def Toggle.elAriaStep (p : Page) (elemId : Nat) (others : List Nat) : Page :=
  Toggle.elAriaRoles.foldl (fun q attr => Toggle.elAriaFlip q elemId others attr) p

/--
The document side of `elementToggle` after the guard has passed, in
source order: `before` hook, class toggling, inactive class, target aria
flips, focusable children, jump for anchor triggers, element aria flips,
`after` hook.
-/
def Toggle.elementToggleDom (st : Settings) (beforeHk afterHk : Option Hook)
    (p : Page) (elemId targetId : Nat) (others foc : List Nat) : Page :=
  let p1 := match beforeHk with | some b => b p | none => p
  let p2 := Toggle.classStep st p1 elemId targetId others
  let p3 := Toggle.inactiveStep st p2 targetId
  let p4 := Toggle.targetAriaStep p3 targetId
  let p5 := if st.focusable then Toggle.toggleFocusable p4 foc else p4
  let p6 :=
    if st.jump && (p5.attrAt elemId "href").isSome then
      Toggle.jumpTo st p5 elemId targetId
    else p5
  let p7 := Toggle.elAriaStep p6 elemId others
  match afterHk with | some a => a p7 | none => p7

/--
`Toggle.elementToggle(element, target, focusable)` (`src/js/default.js`
lines 279-377): store the scratch references on the instance, consult
the `valid` guard (aborting when it is configured and returns false),
then run the document pipeline.  The hook-valued settings fields are the
`validHk`, `beforeHk`, `afterHk` parameters (`none` when the setting is
falsy).
-/
def Toggle.elementToggle (validHk : Option Guard) (beforeHk afterHk : Option Hook)
    (inst : ToggleState) (p : Page) (elemId targetId : Nat) (foc : List Nat) :
    ToggleState × Page :=
  let inst1 := Toggle.scratchUpdate inst p elemId targetId foc
  if (match validHk with | some v => !(v inst1 p) | none => false) then (inst1, p)
  else
    (inst1,
      Toggle.elementToggleDom inst1.settings beforeHk afterHk p elemId targetId
        inst1.others foc)

/-- `Toggle.isActive(element)` (`src/js/default.js` lines 113-131). -/
def Toggle.isActive (st : Settings) (p : Page) (i : Nat) : Bool :=
  if st.activeClass.truthy then p.hasClassAt i st.activeClass.toStr else false

/--
`Toggle.toggle(event)` (`src/js/default.js` lines 159-190): resolve the
target of `event.target`; a missing target is a silent no-op; otherwise
run `elementToggle` with the target's focusable descendants.
`focusQuery` stands for `target.querySelectorAll(Toggle.elFocusable)`,
a descendant query outside the flat document model.  The undo affordance
only attaches a one-shot listener, which mutates nothing modeled here.
-/
def Toggle.toggle (validHk : Option Guard) (beforeHk afterHk : Option Hook)
    (inst : ToggleState) (p : Page) (eventTargetId : Nat)
    (focusQuery : Page → Nat → List Nat) : ToggleState × Page :=
  match p.find? eventTargetId with
  | none => (inst, p)
  | some el =>
      match Toggle.getTarget p el with
      | none => (inst, p)
      | some t =>
          Toggle.elementToggle validHk beforeHk afterHk inst p eventTargetId t
            (focusQuery p t)

/-- `Toggle.click(event)`: delegates to `toggle`. -/
def Toggle.click (validHk : Option Guard) (beforeHk afterHk : Option Hook)
    (inst : ToggleState) (p : Page) (eventTargetId : Nat)
    (focusQuery : Page → Nat → List Nat) : ToggleState × Page :=
  Toggle.toggle validHk beforeHk afterHk inst p eventTargetId focusQuery

/-- `Toggle.change(event)` (`src/js/default.js` lines 98-106):
`checkValidity` is the validity of the changed form control. -/
def Toggle.change (validHk : Option Guard) (beforeHk afterHk : Option Hook)
    (inst : ToggleState) (p : Page) (eventTargetId : Nat) (checkValidity : Bool)
    (focusQuery : Page → Nat → List Nat) : ToggleState × Page :=
  if checkValidity && !(Toggle.isActive inst.settings p eventTargetId) then
    Toggle.toggle validHk beforeHk afterHk inst p eventTargetId focusQuery
  else if !checkValidity && Toggle.isActive inst.settings p eventTargetId then
    Toggle.toggle validHk beforeHk afterHk inst p eventTargetId focusQuery
  else (inst, p)

/-- Resolved default settings (all overrides falsy or absent). -/
def defaultSettings : Settings := buildSettings falsyInput

/-- A toggle instance fresh out of the constructor: default settings, no
stored element. -/
def freshInst : ToggleState :=
  { settings := defaultSettings, element := none, target := none
  , others := [], focusable := [] }

/-- A two-element page with no attributes and no classes. -/
def plainPage : Page :=
  { elements :=
      [ { eid := 0, tag := "A", attrs := fun _ => none, classes := fun _ => false }
      , { eid := 1, tag := "DIV", attrs := fun _ => none, classes := fun _ => false } ]
  , hash := ""
  , focused := none }

/-- C4 counterexample: with a guard that returns false, the transition
is aborted but the instance's stored element field has already been
overwritten, so the observable instance state is not the same as before
the invocation. -/
theorem guard_false_updates_stored_fields :
    (Toggle.elementToggle (some (fun _ _ => false)) none none freshInst plainPage
        0 1 []).1.element = some 0 ∧
      freshInst.element = none :=
  ⟨rfl, rfl⟩

/-- C4 amended: when the configured guard returns false on the updated
instance, the transition is aborted with no document side effects and no
hook application - the document is returned unchanged - but the
instance's scratch fields (element, target, others, focusable) are
updated to the values of this invocation. -/
theorem elementToggle_guard_false_aborts (g : Guard) (beforeHk afterHk : Option Hook)
    (inst : ToggleState) (p : Page) (elemId targetId : Nat) (foc : List Nat)
    (h : g (Toggle.scratchUpdate inst p elemId targetId foc) p = false) :
    Toggle.elementToggle (some g) beforeHk afterHk inst p elemId targetId foc
      = (Toggle.scratchUpdate inst p elemId targetId foc, p) := by
  simp [Toggle.elementToggle, h]

/-- Witness for the C4 amended theorem at a concrete always-false
guard. -/
theorem elementToggle_guard_false_aborts_witness :
    (fun (_ : ToggleState) (_ : Page) => false)
        (Toggle.scratchUpdate freshInst plainPage 0 1 []) plainPage = false ∧
      Toggle.elementToggle (some (fun _ _ => false)) none none freshInst plainPage 0 1 []
        = (Toggle.scratchUpdate freshInst plainPage 0 1 [], plainPage) :=
  ⟨rfl, elementToggle_guard_false_aborts (fun _ _ => false) none none freshInst
    plainPage 0 1 [] rfl⟩

/-- C9: the settings record is never modified by the operations - the
toggle transition, the toggle proxy, and the click and change handlers
all return the instance with its settings intact (`toggleFocusable` and
`jumpTo` act on the document alone and cannot touch them). -/
theorem operations_preserve_settings (validHk : Option Guard)
    (beforeHk afterHk : Option Hook) (inst : ToggleState) (p : Page)
    (i j : Nat) (foc : List Nat) (fq : Page → Nat → List Nat) (cv : Bool) :
    (Toggle.elementToggle validHk beforeHk afterHk inst p i j foc).1.settings
        = inst.settings ∧
      (Toggle.toggle validHk beforeHk afterHk inst p i fq).1.settings = inst.settings ∧
      (Toggle.click validHk beforeHk afterHk inst p i fq).1.settings = inst.settings ∧
      (Toggle.change validHk beforeHk afterHk inst p i cv fq).1.settings
        = inst.settings := by
  have he : ∀ (a b : Nat) (f : List Nat),
      (Toggle.elementToggle validHk beforeHk afterHk inst p a b f).1.settings
        = inst.settings := by
    intro a b f
    unfold Toggle.elementToggle
    dsimp only
    split <;> rfl
  have ht : ∀ (a : Nat),
      (Toggle.toggle validHk beforeHk afterHk inst p a fq).1.settings
        = inst.settings := by
    intro a
    unfold Toggle.toggle
    cases hf : p.find? a with
    | none => rfl
    | some el =>
        cases hgt : Toggle.getTarget p el with
        | none =>
            show (match Toggle.getTarget p el with
              | none => (inst, p)
              | some t => Toggle.elementToggle validHk beforeHk afterHk inst p a t
                  (fq p t)).1.settings = inst.settings
            rw [hgt]
        | some t =>
            show (match Toggle.getTarget p el with
              | none => (inst, p)
              | some t => Toggle.elementToggle validHk beforeHk afterHk inst p a t
                  (fq p t)).1.settings = inst.settings
            rw [hgt]
            exact he a t (fq p t)
  refine ⟨he i j foc, ht i, ht i, ?_⟩
  unfold Toggle.change
  split
  · exact ht i
  · split
    · exact ht i
    · rfl

/-- `find?` commutes with a map that preserves the search predicate. -/
theorem find?_map_of_pred {α : Type} (g : α → α) (q : α → Bool)
    (h : ∀ a, q (g a) = q a) :
    ∀ (l : List α), (l.map g).find? q = (l.find? q).map g := by
  intro l
  induction l with
  | nil => rfl
  | cons a l ih =>
      rw [List.map_cons]
      cases hq : q a with
      | false =>
          rw [List.find?_cons_of_neg _ (by simp [h a, hq]),
            List.find?_cons_of_neg _ (by simp [hq])]
          exact ih
      | true =>
          rw [List.find?_cons_of_pos _ (by simp [h a, hq]),
            List.find?_cons_of_pos _ hq]
          rfl

/-- Looking an identity up after an identity-preserving pointwise update
finds the updated element exactly when the identities agree. -/
theorem Page.find?_update (p : Page) (i j : Nat) (f : Element → Element)
    (hf : ∀ e, (f e).eid = e.eid) :
    (p.update i f).find? j = (p.find? j).map (fun e => if j = i then f e else e) := by
  unfold Page.update Page.find?
  dsimp only
  rw [find?_map_of_pred (fun e => if e.eid = i then f e else e)
    (fun e => decide (e.eid = j)) ?hp]
  case hp =>
    intro a
    by_cases hai : a.eid = i <;> simp [hai, hf]
  cases hfind : p.elements.find? (fun e => decide (e.eid = j)) with
  | none => rfl
  | some e =>
      have he : e.eid = j := by simpa using List.find?_some hfind
      simp [he]

/-- A fold preserves any page observation each of its steps preserves. -/
theorem foldl_view {α β : Type} (V : Page → β) (step : Page → α → Page)
    (h : ∀ q a, V (step q a) = V q) :
    ∀ (l : List α) (p : Page), V (l.foldl step p) = V p := by
  intro l
  induction l with
  | nil => intro p; rfl
  | cons a l ih =>
      intro p
      rw [List.foldl_cons, ih, h]

/-- Mapping through a projection the inner map preserves. -/
theorem map_comp_congr {α β : Type} (g : α → α) (proj : α → β)
    (h : ∀ a, proj (g a) = proj a) (l : List α) :
    l.map (fun a => proj (g a)) = l.map proj := by
  induction l with
  | nil => rfl
  | cons a l ih => rw [List.map_cons, List.map_cons, h a, ih]

theorem setAttr_eid (e : Element) (n v : String) : (e.setAttr n v).eid = e.eid := rfl

theorem removeAttr_eid (e : Element) (n : String) : (e.removeAttr n).eid = e.eid := rfl

theorem classToggle_eid (e : Element) (c : String) : (e.classToggle c).eid = e.eid := rfl

theorem setAttr_classes (e : Element) (n v : String) :
    (e.setAttr n v).classes = e.classes := rfl

theorem removeAttr_classes (e : Element) (n : String) :
    (e.removeAttr n).classes = e.classes := rfl

theorem classToggle_getAttr (e : Element) (c n : String) :
    (e.classToggle c).getAttr n = e.getAttr n := rfl

theorem setAttr_getAttr (e : Element) (n v m : String) :
    (e.setAttr n v).getAttr m = if m = n then some v else e.getAttr m := rfl

theorem removeAttr_getAttr (e : Element) (n m : String) :
    (e.removeAttr n).getAttr m = if m = n then none else e.getAttr m := rfl

/-- An update through a classes-preserving element map leaves every class
observation unchanged. -/
theorem hasClassAt_update_attrf (p : Page) (i : Nat) (f : Element → Element)
    (j : Nat) (c : String) (hf1 : ∀ e, (f e).eid = e.eid)
    (hf2 : ∀ e, (f e).classes = e.classes) :
    (p.update i f).hasClassAt j c = p.hasClassAt j c := by
  unfold Page.hasClassAt
  rw [Page.find?_update p i j f hf1]
  cases p.find? j with
  | none => rfl
  | some e =>
      by_cases hji : j = i <;>
        simp [hji, Element.classContains, hf2]

/-- An update through an element map preserving the attribute `n` leaves
that attribute observation unchanged everywhere. -/
theorem attrAt_update_pres (p : Page) (i : Nat) (f : Element → Element)
    (j : Nat) (n : String) (hf1 : ∀ e, (f e).eid = e.eid)
    (hf2 : ∀ e, (f e).getAttr n = e.getAttr n) :
    (p.update i f).attrAt j n = p.attrAt j n := by
  unfold Page.attrAt
  rw [Page.find?_update p i j f hf1]
  cases p.find? j with
  | none => rfl
  | some e =>
      by_cases hji : j = i <;> simp [hji, hf2]

/-- Updates do not change which identities exist. -/
theorem find?_isSome_update (p : Page) (i j : Nat) (f : Element → Element)
    (hf : ∀ e, (f e).eid = e.eid) :
    ((p.update i f).find? j).isSome = (p.find? j).isSome := by
  rw [Page.find?_update p i j f hf]
  cases p.find? j <;> rfl

/-- The class phase of `elementToggle` as an explicit sequence of
(identity, class) toggles. -/
def applyToggles (p : Page) (L : List (Nat × String)) : Page :=
  L.foldl (fun q ic => q.update ic.1 (fun el => el.classToggle ic.2)) p

/-- Parity of the number of toggles in `L` hitting identity `j` and
class `c`. -/
def parityCount (j : Nat) (c : String) : List (Nat × String) → Bool
  | [] => false
  | ic :: L => Bool.xor (decide (j = ic.1) && decide (c = ic.2)) (parityCount j c L)

theorem applyToggles_append (p : Page) (L1 L2 : List (Nat × String)) :
    applyToggles p (L1 ++ L2) = applyToggles (applyToggles p L1) L2 := by
  unfold applyToggles
  rw [List.foldl_append]

/-- One class toggle flips exactly the membership of the toggled class
on the toggled identity, when that identity exists. -/
theorem hasClassAt_update_classToggle (p : Page) (i j : Nat) (cls c : String) :
    (p.update i (fun el => el.classToggle cls)).hasClassAt j c
      = Bool.xor (p.hasClassAt j c)
          ((decide (j = i) && decide (c = cls)) && (p.find? j).isSome) := by
  unfold Page.hasClassAt
  rw [Page.find?_update p i j (fun el => el.classToggle cls) (fun e => rfl)]
  cases p.find? j with
  | none => simp
  | some e =>
      by_cases hji : j = i
      · subst hji
        by_cases hcc : c = cls
        · subst hcc
          simp [Element.classContains, Element.classToggle]
        · simp [Element.classContains, Element.classToggle, hcc]
      · simp [hji]

theorem find?_isSome_applyToggles (j : Nat) :
    ∀ (L : List (Nat × String)) (p : Page),
      ((applyToggles p L).find? j).isSome = (p.find? j).isSome := by
  intro L
  induction L with
  | nil => intro p; rfl
  | cons ic L ih =>
      intro p
      have h1 : applyToggles p (ic :: L)
          = applyToggles (p.update ic.1 (fun el => el.classToggle ic.2)) L := rfl
      rw [h1, ih,
        find?_isSome_update p ic.1 j (fun el => el.classToggle ic.2) (fun e => rfl)]

theorem xor_and_and (a b s : Bool) :
    Bool.xor (a && s) (b && s) = ((Bool.xor a b) && s) := by
  cases a <;> cases b <;> cases s <;> rfl

/-- Membership after a toggle sequence: the original membership xor-ed
with the parity of the toggles hitting this identity and class. -/
theorem hasClassAt_applyToggles (j : Nat) (c : String) :
    ∀ (L : List (Nat × String)) (p : Page),
      (applyToggles p L).hasClassAt j c
        = Bool.xor (p.hasClassAt j c) (parityCount j c L && (p.find? j).isSome) := by
  intro L
  induction L with
  | nil => intro p; simp [applyToggles, parityCount]
  | cons ic L ih =>
      intro p
      have h1 : applyToggles p (ic :: L)
          = applyToggles (p.update ic.1 (fun el => el.classToggle ic.2)) L := rfl
      rw [h1, ih, hasClassAt_update_classToggle,
        find?_isSome_update p ic.1 j (fun el => el.classToggle ic.2) (fun e => rfl)]
      have h2 : parityCount j c (ic :: L)
          = Bool.xor (decide (j = ic.1) && decide (c = ic.2)) (parityCount j c L) := rfl
      rw [h2, Bool.xor_assoc, xor_and_and]

/-- Applying the same toggle sequence twice restores every class
membership. -/
theorem hasClassAt_applyToggles_twice (j : Nat) (c : String)
    (L : List (Nat × String)) (p : Page) :
    (applyToggles (applyToggles p L) L).hasClassAt j c = p.hasClassAt j c := by
  rw [hasClassAt_applyToggles, hasClassAt_applyToggles, find?_isSome_applyToggles,
    Bool.xor_assoc, Bool.xor_self, Bool.xor_false]

/-- The fold over the other toggles, skipping the element itself, is the
toggle sequence of the others distinct from the element. -/
theorem foldl_filter_toggle (cls : String) (e : Nat) :
    ∀ (others : List Nat) (p : Page),
      others.foldl (fun q oid =>
        if oid ≠ e then q.update oid (fun el => el.classToggle cls) else q) p
      = applyToggles p ((others.filter (fun o => o ≠ e)).map (fun o => (o, cls))) := by
  intro others
  induction others with
  | nil => intro p; rfl
  | cons o os ih =>
      intro p
      rw [List.foldl_cons]
      by_cases ho : o ≠ e
      · rw [if_pos ho, List.filter_cons_of_pos (by simpa using ho), List.map_cons]
        have h1 : applyToggles p ((o, cls) :: (os.filter (fun x => x ≠ e)).map (fun x => (x, cls)))
            = applyToggles (p.update o (fun el => el.classToggle cls))
                ((os.filter (fun x => x ≠ e)).map (fun x => (x, cls))) := rfl
        rw [h1]
        exact ih _
      · rw [if_neg ho, List.filter_cons_of_neg (by simpa using ho)]
        exact ih p

/-- The toggles performed by the active-class step, as a list. -/
def activeToggles (st : Settings) (e t : Nat) (others : List Nat) :
    List (Nat × String) :=
  if st.activeClass.truthy then
    (e, st.activeClass.toStr) :: (t, st.activeClass.toStr) ::
      (others.filter (fun o => o ≠ e)).map (fun o => (o, st.activeClass.toStr))
  else []

/-- The toggles performed by the inactive-class step, as a list. -/
def inactiveToggles (st : Settings) (t : Nat) : List (Nat × String) :=
  if st.inactiveClass.truthy then [(t, st.inactiveClass.toStr)] else []

/-- The full class phase of one transition, as a toggle list. -/
def roundToggles (st : Settings) (e t : Nat) (others : List Nat) :
    List (Nat × String) :=
  activeToggles st e t others ++ inactiveToggles st t

theorem classStep_eq_applyToggles (st : Settings) (p : Page) (e t : Nat)
    (others : List Nat) :
    Toggle.classStep st p e t others = applyToggles p (activeToggles st e t others) := by
  unfold Toggle.classStep activeToggles
  by_cases hA : st.activeClass.truthy
  · rw [if_pos hA, if_pos hA]
    dsimp only
    rw [foldl_filter_toggle]
    rfl
  · rw [if_neg hA, if_neg hA]
    rfl

theorem inactiveStep_eq_applyToggles (st : Settings) (p : Page) (t : Nat) :
    Toggle.inactiveStep st p t = applyToggles p (inactiveToggles st t) := by
  unfold Toggle.inactiveStep inactiveToggles
  by_cases hI : st.inactiveClass.truthy
  · rw [if_pos hI, if_pos hI]
    rfl
  · rw [if_neg hI, if_neg hI]
    rfl

/-- The class phase of `elementToggle` is exactly the round's toggle
sequence. -/
theorem classPhase_eq_applyToggles (st : Settings) (p : Page) (e t : Nat)
    (others : List Nat) :
    Toggle.inactiveStep st (Toggle.classStep st p e t others) t
      = applyToggles p (roundToggles st e t others) := by
  rw [classStep_eq_applyToggles, inactiveStep_eq_applyToggles, roundToggles,
    applyToggles_append]

/-- Projection of a document to identities paired with one observation
per element. -/
def eidView {γ : Type} (obs : Element → γ) (p : Page) : List (Nat × γ) :=
  p.elements.map (fun e => (e.eid, obs e))

/-- An identity-preserving update that also preserves the observation
leaves the view unchanged. -/
theorem eidView_update {γ : Type} (obs : Element → γ) (p : Page) (i : Nat)
    (f : Element → Element)
    (hf : ∀ e, (f e).eid = e.eid ∧ obs (f e) = obs e) :
    eidView obs (p.update i f) = eidView obs p := by
  unfold eidView Page.update
  dsimp only
  rw [List.map_map]
  show p.elements.map (fun e => ((if e.eid = i then f e else e).eid,
    obs (if e.eid = i then f e else e))) = p.elements.map (fun e => (e.eid, obs e))
  exact map_comp_congr (fun e => if e.eid = i then f e else e)
    (fun e => (e.eid, obs e))
    (fun a => by by_cases hai : a.eid = i <;> simp [hai, (hf a).1, (hf a).2])
    p.elements

/-- `find?` through a projection agrees on lists with equal projected
views. -/
theorem find?_map_proj {α β : Type} (proj : α → β) (pb : β → Bool) :
    ∀ (l m : List α), l.map proj = m.map proj →
      (l.find? (fun a => pb (proj a))).map proj
        = (m.find? (fun a => pb (proj a))).map proj := by
  intro l
  induction l with
  | nil =>
      intro m h
      cases m with
      | nil => rfl
      | cons b m => simp at h
  | cons a l ih =>
      intro m h
      cases m with
      | nil => simp at h
      | cons b m =>
          rw [List.map_cons, List.map_cons] at h
          injection h with hab hlm
          cases hpa : pb (proj a) with
          | true =>
              rw [@List.find?_cons_of_pos _ (fun x => pb (proj x)) a l hpa,
                @List.find?_cons_of_pos _ (fun x => pb (proj x)) b m
                  (show pb (proj b) = true by rw [← hab]; exact hpa)]
              simp [hab]
          | false =>
              rw [@List.find?_cons_of_neg _ (fun x => pb (proj x)) a l
                  (by simp [hpa]),
                @List.find?_cons_of_neg _ (fun x => pb (proj x)) b m
                  (by simp [← hab, hpa])]
              exact ih m hlm

/-- `filter` through a projection agrees on lists with equal projected
views. -/
theorem filter_map_proj {α β : Type} (proj : α → β) (pb : β → Bool) :
    ∀ (l m : List α), l.map proj = m.map proj →
      (l.filter (fun a => pb (proj a))).map proj
        = (m.filter (fun a => pb (proj a))).map proj := by
  intro l
  induction l with
  | nil =>
      intro m h
      cases m with
      | nil => rfl
      | cons b m => simp at h
  | cons a l ih =>
      intro m h
      cases m with
      | nil => simp at h
      | cons b m =>
          rw [List.map_cons, List.map_cons] at h
          injection h with hab hlm
          cases hpa : pb (proj a) with
          | true =>
              rw [@List.filter_cons_of_pos _ (fun x => pb (proj x)) a l hpa,
                @List.filter_cons_of_pos _ (fun x => pb (proj x)) b m
                  (show pb (proj b) = true by rw [← hab]; exact hpa),
                List.map_cons, List.map_cons, hab, ih m hlm]
          | false =>
              rw [@List.filter_cons_of_neg _ (fun x => pb (proj x)) a l
                  (by simp [hpa]),
                @List.filter_cons_of_neg _ (fun x => pb (proj x)) b m
                  (by simp [← hab, hpa])]
              exact ih m hlm

/-- On pages with equal views, looking an identity up yields elements
with equal identity and observation. -/
theorem find?_congr_eidView {γ : Type} (obs : Element → γ) (p q : Page) (j : Nat)
    (h : eidView obs q = eidView obs p) :
    (q.find? j).map (fun e => (e.eid, obs e))
      = (p.find? j).map (fun e => (e.eid, obs e)) := by
  have hgen := find?_map_proj (fun (e : Element) => (e.eid, obs e))
    (fun x => decide (x.1 = j)) q.elements p.elements h
  have hpred : (fun (a : Element) => decide ((a.eid, obs a).1 = j))
      = (fun (e : Element) => decide (e.eid = j)) := rfl
  rw [hpred] at hgen
  exact hgen

/-- Pages with equal class views agree on every class membership. -/
theorem hasClassAt_congr (p q : Page)
    (h : eidView (fun e => e.classes) q = eidView (fun e => e.classes) p)
    (j : Nat) (c : String) :
    q.hasClassAt j c = p.hasClassAt j c := by
  have hf := find?_congr_eidView (fun e => e.classes) p q j h
  unfold Page.hasClassAt
  cases hq : q.find? j <;> cases hp : p.find? j <;> rw [hq, hp] at hf <;>
    simp at hf ⊢
  · exact congrFun hf.2 c

/-- Pages with equal views of attribute `n` agree on every reading of
`n`. -/
theorem attrAt_congr (n : String) (p q : Page)
    (h : eidView (fun e => e.getAttr n) q = eidView (fun e => e.getAttr n) p)
    (j : Nat) :
    q.attrAt j n = p.attrAt j n := by
  have hf := find?_congr_eidView (fun e => e.getAttr n) p q j h
  unfold Page.attrAt
  cases hq : q.find? j <;> cases hp : p.find? j <;> rw [hq, hp] at hf <;>
    simp at hf ⊢
  exact hf.2

/-- Pages with equal views agree on which identities exist. -/
theorem find?_isSome_congr {γ : Type} (obs : Element → γ) (p q : Page) (j : Nat)
    (h : eidView obs q = eidView obs p) :
    (q.find? j).isSome = (p.find? j).isSome := by
  have hf := find?_congr_eidView obs p q j h
  cases hq : q.find? j <;> cases hp : p.find? j <;> rw [hq, hp] at hf <;>
    simp at hf ⊢

/-- The navigation observation: the attributes `getOthers` selects on. -/
def navObs (e : Element) : Option String × Option String :=
  (e.getAttr "href", e.getAttr "aria-controls")

/-- On pages with equal navigation views, the element lists selected by
an exact `href` value have the same identities. -/
theorem queryAll_href_congr (p q : Page)
    (h : eidView navObs q = eidView navObs p) (v : String) :
    (q.queryAllByAttr "href" v).map (fun el => el.eid)
      = (p.queryAllByAttr "href" v).map (fun el => el.eid) := by
  have hgen := filter_map_proj (fun (e : Element) => (e.eid, navObs e))
    (fun x => decide (x.2.1 = some v)) q.elements p.elements h
  have hpred : (fun (a : Element) => decide ((a.eid, navObs a).2.1 = some v))
      = (fun (e : Element) => decide (e.getAttr "href" = some v)) := rfl
  rw [hpred] at hgen
  have hq : (q.queryAllByAttr "href" v).map (fun el => el.eid)
      = ((q.elements.filter (fun e => decide (e.getAttr "href" = some v))).map
          (fun e => (e.eid, navObs e))).map (fun x => x.1) := by
    rw [List.map_map]
    rfl
  have hp : (p.queryAllByAttr "href" v).map (fun el => el.eid)
      = ((p.elements.filter (fun e => decide (e.getAttr "href" = some v))).map
          (fun e => (e.eid, navObs e))).map (fun x => x.1) := by
    rw [List.map_map]
    rfl
  rw [hq, hp, hgen]

/-- On pages with equal navigation views, the element lists selected by
an exact `aria-controls` value have the same identities. -/
theorem queryAll_ac_congr (p q : Page)
    (h : eidView navObs q = eidView navObs p) (v : String) :
    (q.queryAllByAttr "aria-controls" v).map (fun el => el.eid)
      = (p.queryAllByAttr "aria-controls" v).map (fun el => el.eid) := by
  have hgen := filter_map_proj (fun (e : Element) => (e.eid, navObs e))
    (fun x => decide (x.2.2 = some v)) q.elements p.elements h
  have hpred : (fun (a : Element) => decide ((a.eid, navObs a).2.2 = some v))
      = (fun (e : Element) => decide (e.getAttr "aria-controls" = some v)) := rfl
  rw [hpred] at hgen
  have hq : (q.queryAllByAttr "aria-controls" v).map (fun el => el.eid)
      = ((q.elements.filter (fun e => decide (e.getAttr "aria-controls" = some v))).map
          (fun e => (e.eid, navObs e))).map (fun x => x.1) := by
    rw [List.map_map]
    rfl
  have hp : (p.queryAllByAttr "aria-controls" v).map (fun el => el.eid)
      = ((p.elements.filter (fun e => decide (e.getAttr "aria-controls" = some v))).map
          (fun e => (e.eid, navObs e))).map (fun x => x.1) := by
    rw [List.map_map]
    rfl
  rw [hq, hp, hgen]

/-- `getOthers` only looks at the navigation view, so pages with equal
views and elements with equal navigation observations select the same
other toggles. -/
theorem getOthers_congr (p q : Page) (h : eidView navObs q = eidView navObs p)
    (e' e : Element) (he : navObs e' = navObs e) :
    Toggle.getOthers q e' = Toggle.getOthers p e := by
  have h1 : e'.getAttr "href" = e.getAttr "href" := congrArg Prod.fst he
  have h2 : e'.getAttr "aria-controls" = e.getAttr "aria-controls" :=
    congrArg Prod.snd he
  unfold Toggle.getOthers
  rw [show e'.hasAttr "href" = e.hasAttr "href" from by
      unfold Element.hasAttr
      rw [show e'.attrs "href" = e.attrs "href" from h1],
    show e'.hasAttr "aria-controls" = e.hasAttr "aria-controls" from by
      unfold Element.hasAttr
      rw [show e'.attrs "aria-controls" = e.attrs "aria-controls" from h2]]
  by_cases hh : e.hasAttr "href" = true
  · rw [if_pos hh, if_pos hh, h1, queryAll_href_congr p q h]
  · rw [if_neg hh, if_neg hh]
    by_cases hac : e.hasAttr "aria-controls" = true
    · rw [if_pos hac, if_pos hac, h2, queryAll_ac_congr p q h]
    · rw [if_neg hac, if_neg hac]

/-- `othersOf` is determined by the navigation view. -/
theorem othersOf_congr (p q : Page) (h : eidView navObs q = eidView navObs p)
    (i : Nat) :
    Toggle.othersOf q i = Toggle.othersOf p i := by
  have hf := find?_congr_eidView navObs p q i h
  unfold Toggle.othersOf
  cases hq : q.find? i <;> cases hp : p.find? i <;> rw [hq, hp] at hf <;>
    simp at hf ⊢
  exact getOthers_congr p q h _ _ hf.2

/-- Class toggles preserve every observation that ignores classes. -/
theorem eidView_applyToggles {γ : Type} (obs : Element → γ)
    (htog : ∀ e c, obs (e.classToggle c) = obs e) :
    ∀ (L : List (Nat × String)) (p : Page),
      eidView obs (applyToggles p L) = eidView obs p := by
  intro L
  induction L with
  | nil => intro p; rfl
  | cons ic L ih =>
      intro p
      have h1 : applyToggles p (ic :: L)
          = applyToggles (p.update ic.1 (fun el => el.classToggle ic.2)) L := rfl
      rw [h1, ih, eidView_update obs p ic.1 (fun el => el.classToggle ic.2)
        (fun e => ⟨rfl, htog e ic.2⟩)]

theorem eidView_targetAriaFlip {γ : Type} (obs : Element → γ) (attr : String)
    (hset : ∀ e v, obs (e.setAttr attr v) = obs e) (p : Page) (t : Nat) :
    eidView obs (Toggle.targetAriaFlip p t attr) = eidView obs p := by
  unfold Toggle.targetAriaFlip
  cases hv : p.attrAt t attr with
  | none => rfl
  | some v =>
      dsimp only
      by_cases hvv : v ≠ ""
      · rw [if_pos hvv]
        exact eidView_update obs p t _ (fun e => ⟨rfl, hset e _⟩)
      · rw [if_neg hvv]

theorem eidView_targetAriaStep {γ : Type} (obs : Element → γ)
    (hset : ∀ e v, obs (e.setAttr "aria-hidden" v) = obs e) (p : Page) (t : Nat) :
    eidView obs (Toggle.targetAriaStep p t) = eidView obs p := by
  unfold Toggle.targetAriaStep Toggle.targetAriaRoles
  rw [List.foldl_cons, List.foldl_nil, eidView_targetAriaFlip obs _ hset]

theorem eidView_toggleFocusableStep {γ : Type} (obs : Element → γ)
    (hset : ∀ e v, obs (e.setAttr "tabindex" v) = obs e)
    (hrem : ∀ e, obs (e.removeAttr "tabindex") = obs e) (p : Page) (i : Nat) :
    eidView obs (Toggle.toggleFocusableStep p i) = eidView obs p := by
  unfold Toggle.toggleFocusableStep
  dsimp only
  by_cases h1 : p.attrAt i "tabindex" = some "-1"
  · rw [if_pos h1]
    cases hd : p.attrAt i ("data-" ++ Toggle.nameSpace ++ "-tabindex") with
    | some v =>
        dsimp only
        by_cases hv : v ≠ ""
        · rw [if_pos hv]
          exact eidView_update obs p i _ (fun e => ⟨rfl, hset e v⟩)
        · rw [if_neg hv]
          exact eidView_update obs p i _ (fun e => ⟨rfl, hrem e⟩)
    | none => exact eidView_update obs p i _ (fun e => ⟨rfl, hrem e⟩)
  · rw [if_neg h1]
    exact eidView_update obs p i _ (fun e => ⟨rfl, hset e _⟩)

theorem eidView_toggleFocusable {γ : Type} (obs : Element → γ)
    (hset : ∀ e v, obs (e.setAttr "tabindex" v) = obs e)
    (hrem : ∀ e, obs (e.removeAttr "tabindex") = obs e)
    (foc : List Nat) (p : Page) :
    eidView obs (Toggle.toggleFocusable p foc) = eidView obs p :=
  foldl_view (eidView obs) Toggle.toggleFocusableStep
    (fun q a => eidView_toggleFocusableStep obs hset hrem q a) foc p

theorem eidView_jumpTo {γ : Type} (obs : Element → γ)
    (hset : ∀ e v, obs (e.setAttr "tabindex" v) = obs e)
    (hrem : ∀ e, obs (e.removeAttr "tabindex") = obs e)
    (st : Settings) (p : Page) (e t : Nat) :
    eidView obs (Toggle.jumpTo st p e t) = eidView obs p := by
  unfold Toggle.jumpTo
  dsimp only
  cases hf : Page.find? { p with hash := "" } t with
  | none => rfl
  | some tEl =>
      dsimp only
      by_cases hact : tEl.classContains st.activeClass.toStr = true
      · rw [if_pos hact]
        exact eidView_update obs _ t _ (fun e => ⟨rfl, hset e _⟩)
      · rw [if_neg hact]
        exact eidView_update obs _ t _ (fun e => ⟨rfl, hrem e⟩)

theorem eidView_elAriaFlip {γ : Type} (obs : Element → γ) (attr : String)
    (hset : ∀ e v, obs (e.setAttr attr v) = obs e) (p : Page) (eid : Nat)
    (others : List Nat) :
    eidView obs (Toggle.elAriaFlip p eid others attr) = eidView obs p := by
  unfold Toggle.elAriaFlip
  dsimp only
  refine Eq.trans (foldl_view (eidView obs) _ ?hstep others _) ?hbase
  case hstep =>
    intro q oid
    by_cases hoe : oid ≠ eid
    · rw [if_pos hoe]
      cases hq : q.attrAt oid attr with
      | none => rfl
      | some ov =>
          dsimp only
          by_cases hov : ov ≠ ""
          · rw [if_pos hov]
            exact eidView_update obs q oid _ (fun x => ⟨rfl, hset x _⟩)
          · rw [if_neg hov]
    · rw [if_neg hoe]
  case hbase =>
    cases hv : p.attrAt eid attr with
    | none => rfl
    | some v =>
        dsimp only
        by_cases hvv : v ≠ ""
        · rw [if_pos hvv]
          exact eidView_update obs p eid _ (fun x => ⟨rfl, hset x _⟩)
        · rw [if_neg hvv]

theorem eidView_elAriaStep {γ : Type} (obs : Element → γ)
    (hps : ∀ e v, obs (e.setAttr "aria-pressed" v) = obs e)
    (hxp : ∀ e v, obs (e.setAttr "aria-expanded" v) = obs e)
    (p : Page) (eid : Nat) (others : List Nat) :
    eidView obs (Toggle.elAriaStep p eid others) = eidView obs p := by
  unfold Toggle.elAriaStep Toggle.elAriaRoles
  rw [List.foldl_cons, List.foldl_cons, List.foldl_nil,
    eidView_elAriaFlip obs _ hxp, eidView_elAriaFlip obs _ hps]

/-- The steps of the transition after the class phase, in source order:
target aria flips, focusable children, jump, element aria flips. -/
def Toggle.postClassPhase (st : Settings) (p : Page) (elemId targetId : Nat)
    (others foc : List Nat) : Page :=
  let p4 := Toggle.targetAriaStep p targetId
  let p5 := if st.focusable then Toggle.toggleFocusable p4 foc else p4
  let p6 :=
    if st.jump && (p5.attrAt elemId "href").isSome then
      Toggle.jumpTo st p5 elemId targetId
    else p5
  Toggle.elAriaStep p6 elemId others

/-- Without hooks, the document pipeline is the class phase followed by
the post phase. -/
theorem elementToggleDom_none_eq (st : Settings) (p : Page) (e t : Nat)
    (others foc : List Nat) :
    Toggle.elementToggleDom st none none p e t others foc
      = Toggle.postClassPhase st
          (Toggle.inactiveStep st (Toggle.classStep st p e t others) t)
          e t others foc := rfl

theorem eidView_postClassPhase {γ : Type} (obs : Element → γ)
    (hah : ∀ e v, obs (e.setAttr "aria-hidden" v) = obs e)
    (htset : ∀ e v, obs (e.setAttr "tabindex" v) = obs e)
    (htrem : ∀ e, obs (e.removeAttr "tabindex") = obs e)
    (hps : ∀ e v, obs (e.setAttr "aria-pressed" v) = obs e)
    (hxp : ∀ e v, obs (e.setAttr "aria-expanded" v) = obs e)
    (st : Settings) (p : Page) (e t : Nat) (others foc : List Nat) :
    eidView obs (Toggle.postClassPhase st p e t others foc) = eidView obs p := by
  unfold Toggle.postClassPhase
  dsimp only
  have h6 : ∀ q : Page,
      eidView obs (if st.jump && (q.attrAt e "href").isSome then
        Toggle.jumpTo st q e t else q) = eidView obs q := by
    intro q
    split
    · exact eidView_jumpTo obs htset htrem st q e t
    · rfl
  have h5 : ∀ q : Page,
      eidView obs (if st.focusable then Toggle.toggleFocusable q foc else q)
        = eidView obs q := by
    intro q
    split
    · exact eidView_toggleFocusable obs htset htrem foc q
    · rfl
  rw [eidView_elAriaStep obs hps hxp, h6, h5, eidView_targetAriaStep obs hah]

/-- Setting one attribute does not change the navigation observation
when the name is neither `href` nor `aria-controls`. -/
theorem navObs_setAttr (e : Element) (n v : String)
    (h1 : ¬("href" : String) = n) (h2 : ¬("aria-controls" : String) = n) :
    navObs (e.setAttr n v) = navObs e := by
  unfold navObs Element.setAttr Element.getAttr
  dsimp only
  rw [if_neg h1, if_neg h2]

/-- Removing one attribute does not change the navigation observation
when the name is neither `href` nor `aria-controls`. -/
theorem navObs_removeAttr (e : Element) (n : String)
    (h1 : ¬("href" : String) = n) (h2 : ¬("aria-controls" : String) = n) :
    navObs (e.removeAttr n) = navObs e := by
  unfold navObs Element.removeAttr Element.getAttr
  dsimp only
  rw [if_neg h1, if_neg h2]

/-- A hook-free transition never touches `href` or `aria-controls`, so
the navigation view of the document is unchanged. -/
theorem navView_elementToggleDom_none (st : Settings) (p : Page) (e t : Nat)
    (others foc : List Nat) :
    eidView navObs (Toggle.elementToggleDom st none none p e t others foc)
      = eidView navObs p := by
  rw [elementToggleDom_none_eq]
  rw [eidView_postClassPhase navObs
    (fun el v => navObs_setAttr el _ v (by decide) (by decide))
    (fun el v => navObs_setAttr el _ v (by decide) (by decide))
    (fun el => navObs_removeAttr el _ (by decide) (by decide))
    (fun el v => navObs_setAttr el _ v (by decide) (by decide))
    (fun el v => navObs_setAttr el _ v (by decide) (by decide))
    st _ e t others foc]
  rw [classPhase_eq_applyToggles, eidView_applyToggles navObs (fun el c => rfl)]

/-- The class memberships after a hook-free transition are those of the
round's toggle sequence: the post phase only writes attributes. -/
theorem hasClassAt_elementToggleDom_none (st : Settings) (p : Page) (e t : Nat)
    (others foc : List Nat) (j : Nat) (c : String) :
    (Toggle.elementToggleDom st none none p e t others foc).hasClassAt j c
      = (applyToggles p (roundToggles st e t others)).hasClassAt j c := by
  rw [elementToggleDom_none_eq]
  rw [hasClassAt_congr _ _
    (eidView_postClassPhase (fun el => el.classes)
      (fun el v => rfl) (fun el v => rfl) (fun el => rfl)
      (fun el v => rfl) (fun el v => rfl) st _ e t others foc) j c]
  rw [classPhase_eq_applyToggles]

/-- An attribute reading of `some v` implies the element exists. -/
theorem attrAt_isSome {p : Page} {i : Nat} {n v : String}
    (h : p.attrAt i n = some v) : (p.find? i).isSome = true := by
  unfold Page.attrAt at h
  cases hf : p.find? i with
  | none => rw [hf] at h; cases h
  | some e => rfl

/-- Writing an attribute on an existing element is then read back. -/
theorem attrAt_update_setAttr_self (p : Page) (i : Nat) (n v : String)
    (h : (p.find? i).isSome = true) :
    (p.update i (fun el => el.setAttr n v)).attrAt i n = some v := by
  unfold Page.attrAt
  rw [Page.find?_update p i i (fun el => el.setAttr n v) (fun e => rfl)]
  cases hf : p.find? i with
  | none => rw [hf] at h; cases h
  | some e => simp [Element.setAttr, Element.getAttr]

/-- The target aria step writes the flip of a non-empty `aria-hidden`
value. -/
theorem attrAt_targetAriaStep_flip (p : Page) (t : Nat) (v : String)
    (hv : p.attrAt t "aria-hidden" = some v) (hne : v ≠ "") :
    (Toggle.targetAriaStep p t).attrAt t "aria-hidden"
      = some (if v = "true" then "false" else "true") := by
  unfold Toggle.targetAriaStep Toggle.targetAriaRoles
  rw [List.foldl_cons, List.foldl_nil]
  unfold Toggle.targetAriaFlip
  rw [hv]
  dsimp only
  rw [if_pos hne]
  exact attrAt_update_setAttr_self p t _ _ (attrAt_isSome hv)

/-- A hook-free transition flips a non-empty `aria-hidden` value of the
target: no later step of the pipeline writes that attribute. -/
theorem attrAt_elementToggleDom_ah (st : Settings) (p : Page) (e t : Nat)
    (others foc : List Nat) (v : String)
    (hv : p.attrAt t "aria-hidden" = some v) (hne : v ≠ "") :
    (Toggle.elementToggleDom st none none p e t others foc).attrAt t "aria-hidden"
      = some (if v = "true" then "false" else "true") := by
  rw [elementToggleDom_none_eq]
  unfold Toggle.postClassPhase
  dsimp only
  set CP := Toggle.inactiveStep st (Toggle.classStep st p e t others) t with hCP
  have hCPv : CP.attrAt t "aria-hidden" = some v := by
    rw [hCP, classPhase_eq_applyToggles]
    rw [attrAt_congr "aria-hidden" p _
      (eidView_applyToggles (fun el => el.getAttr "aria-hidden") (fun el c => rfl)
        (roundToggles st e t others) p)]
    exact hv
  have hts : ∀ (el : Element) (w : String),
      (el.setAttr "tabindex" w).getAttr "aria-hidden" = el.getAttr "aria-hidden" := by
    intro el w
    rw [setAttr_getAttr, if_neg (by decide)]
  have htr : ∀ (el : Element),
      (el.removeAttr "tabindex").getAttr "aria-hidden" = el.getAttr "aria-hidden" := by
    intro el
    rw [removeAttr_getAttr, if_neg (by decide)]
  have hpsh : ∀ (el : Element) (w : String),
      (el.setAttr "aria-pressed" w).getAttr "aria-hidden" = el.getAttr "aria-hidden" := by
    intro el w
    rw [setAttr_getAttr, if_neg (by decide)]
  have hxph : ∀ (el : Element) (w : String),
      (el.setAttr "aria-expanded" w).getAttr "aria-hidden" = el.getAttr "aria-hidden" := by
    intro el w
    rw [setAttr_getAttr, if_neg (by decide)]
  rw [attrAt_congr "aria-hidden" _ _
    (eidView_elAriaStep (fun el => el.getAttr "aria-hidden") hpsh hxph _ e others) t]
  have h6 : ∀ q : Page,
      (if st.jump && (q.attrAt e "href").isSome then
        Toggle.jumpTo st q e t else q).attrAt t "aria-hidden"
        = q.attrAt t "aria-hidden" := by
    intro q
    split
    · exact attrAt_congr "aria-hidden" q _
        (eidView_jumpTo (fun el => el.getAttr "aria-hidden") hts htr st q e t) t
    · rfl
  have h5 : ∀ q : Page,
      (if st.focusable then Toggle.toggleFocusable q foc else q).attrAt t "aria-hidden"
        = q.attrAt t "aria-hidden" := by
    intro q
    split
    · exact attrAt_congr "aria-hidden" q _
        (eidView_toggleFocusable (fun el => el.getAttr "aria-hidden") hts htr foc q) t
    · rfl
  rw [h6, h5]
  exact attrAt_targetAriaStep_flip CP t v hCPv hne

/-- C6: a transition on a target whose `aria-hidden` is the string
`true` leaves exactly the string `false` there, and conversely; the
values written are string literals. -/
theorem elementToggle_flips_aria_hidden (inst : ToggleState) (p : Page)
    (e t : Nat) (foc : List Nat) :
    ((p.attrAt t "aria-hidden" = some "true") →
      (Toggle.elementToggle none none none inst p e t foc).2.attrAt t "aria-hidden"
        = some "false") ∧
    ((p.attrAt t "aria-hidden" = some "false") →
      (Toggle.elementToggle none none none inst p e t foc).2.attrAt t "aria-hidden"
        = some "true") := by
  have hrepr : (Toggle.elementToggle none none none inst p e t foc).2
      = Toggle.elementToggleDom inst.settings none none p e t
          (Toggle.othersOf p e) foc := rfl
  constructor
  · intro h
    rw [hrepr]
    have hres := attrAt_elementToggleDom_ah inst.settings p e t
      (Toggle.othersOf p e) foc "true" h (by decide)
    simpa using hres
  · intro h
    rw [hrepr]
    have hres := attrAt_elementToggleDom_ah inst.settings p e t
      (Toggle.othersOf p e) foc "false" h (by decide)
    simpa using hres

/-- Concrete page for the C6 witness: anchor trigger and hidden target. -/
def c6Page : Page :=
  { elements :=
      [ { eid := 0, tag := "A"
        , attrs := fun n => if n = "href" then some "#panel" else none
        , classes := fun _ => false }
      , { eid := 1, tag := "DIV"
        , attrs := fun n =>
            if n = "id" then some "panel"
            else if n = "aria-hidden" then some "true"
            else none
        , classes := fun _ => false } ]
  , hash := ""
  , focused := none }

/-- Witness for C6 on a concrete hidden target. -/
theorem elementToggle_flips_aria_hidden_witness :
    c6Page.attrAt 1 "aria-hidden" = some "true" ∧
      (Toggle.elementToggle none none none freshInst c6Page 0 1 []).2.attrAt 1
        "aria-hidden" = some "false" :=
  ⟨rfl, (elementToggle_flips_aria_hidden freshInst c6Page 0 1 []).1 rfl⟩

/-- Core of the involution: running the hook-free transition twice on
the same trigger and target restores every class membership. -/
theorem hasClassAt_elementToggle_twice (inst : ToggleState) (p : Page)
    (e t : Nat) (foc : List Nat) (j : Nat) (c : String) :
    (Toggle.elementToggle none none none
        (Toggle.elementToggle none none none inst p e t foc).1
        (Toggle.elementToggle none none none inst p e t foc).2
        e t foc).2.hasClassAt j c = p.hasClassAt j c := by
  have hstep2 : (Toggle.elementToggle none none none
      (Toggle.elementToggle none none none inst p e t foc).1
      (Toggle.elementToggle none none none inst p e t foc).2 e t foc).2
      = Toggle.elementToggleDom inst.settings none none
          (Toggle.elementToggle none none none inst p e t foc).2 e t
          (Toggle.othersOf (Toggle.elementToggle none none none inst p e t foc).2 e)
          foc := rfl
  have hstep1 : (Toggle.elementToggle none none none inst p e t foc).2
      = Toggle.elementToggleDom inst.settings none none p e t
          (Toggle.othersOf p e) foc := rfl
  rw [hstep2, hstep1]
  set p1 := Toggle.elementToggleDom inst.settings none none p e t
    (Toggle.othersOf p e) foc with hp1
  have hnav : eidView navObs p1 = eidView navObs p := by
    rw [hp1]
    exact navView_elementToggleDom_none inst.settings p e t (Toggle.othersOf p e) foc
  have hoth : Toggle.othersOf p1 e = Toggle.othersOf p e := othersOf_congr p p1 hnav e
  rw [hoth, hasClassAt_elementToggleDom_none, hasClassAt_applyToggles]
  have hmem : p1.hasClassAt j c
      = (applyToggles p
          (roundToggles inst.settings e t (Toggle.othersOf p e))).hasClassAt j c := by
    rw [hp1]
    exact hasClassAt_elementToggleDom_none inst.settings p e t
      (Toggle.othersOf p e) foc j c
  rw [hmem, hasClassAt_applyToggles,
    find?_isSome_congr navObs p p1 j hnav,
    Bool.xor_assoc, Bool.xor_self, Bool.xor_false]

/-- C5: with `activeClass` set and no guard or hook configured, two
transitions in succession on the same trigger and target return the
trigger's and the target's `activeClass` membership, and the target's
`inactiveClass` membership, to their original state. -/
theorem elementToggle_twice_restores_classes (inst : ToggleState) (p : Page)
    (e t : Nat) (foc : List Nat)
    (hA : inst.settings.activeClass.truthy = true) :
    ((Toggle.elementToggle none none none
        (Toggle.elementToggle none none none inst p e t foc).1
        (Toggle.elementToggle none none none inst p e t foc).2
        e t foc).2.hasClassAt e inst.settings.activeClass.toStr
      = p.hasClassAt e inst.settings.activeClass.toStr) ∧
    ((Toggle.elementToggle none none none
        (Toggle.elementToggle none none none inst p e t foc).1
        (Toggle.elementToggle none none none inst p e t foc).2
        e t foc).2.hasClassAt t inst.settings.activeClass.toStr
      = p.hasClassAt t inst.settings.activeClass.toStr) ∧
    ((Toggle.elementToggle none none none
        (Toggle.elementToggle none none none inst p e t foc).1
        (Toggle.elementToggle none none none inst p e t foc).2
        e t foc).2.hasClassAt t inst.settings.inactiveClass.toStr
      = p.hasClassAt t inst.settings.inactiveClass.toStr) :=
  ⟨hasClassAt_elementToggle_twice inst p e t foc e inst.settings.activeClass.toStr,
    hasClassAt_elementToggle_twice inst p e t foc t inst.settings.activeClass.toStr,
    hasClassAt_elementToggle_twice inst p e t foc t inst.settings.inactiveClass.toStr⟩

/-- Witness for C5 on the concrete anchor/panel page: the default
settings have a truthy active class. -/
theorem elementToggle_twice_restores_classes_witness :
    freshInst.settings.activeClass.truthy = true ∧
      ((Toggle.elementToggle none none none
          (Toggle.elementToggle none none none freshInst c6Page 0 1 []).1
          (Toggle.elementToggle none none none freshInst c6Page 0 1 []).2
          0 1 []).2.hasClassAt 0 freshInst.settings.activeClass.toStr
        = c6Page.hasClassAt 0 freshInst.settings.activeClass.toStr) :=
  ⟨by decide,
    (elementToggle_twice_restores_classes freshInst c6Page 0 1 [] (by decide)).1⟩

theorem parityCount_append (j : Nat) (c : String) :
    ∀ (L1 L2 : List (Nat × String)),
      parityCount j c (L1 ++ L2)
        = Bool.xor (parityCount j c L1) (parityCount j c L2) := by
  intro L1 L2
  induction L1 with
  | nil => simp [parityCount]
  | cons ic L ih =>
      have h1 : parityCount j c ((ic :: L) ++ L2)
          = Bool.xor (decide (j = ic.1) && decide (c = ic.2))
              (parityCount j c (L ++ L2)) := rfl
      have h2 : parityCount j c (ic :: L)
          = Bool.xor (decide (j = ic.1) && decide (c = ic.2))
              (parityCount j c L) := rfl
      rw [h1, ih, h2, Bool.xor_assoc]

/-- Parity of a duplicate-free toggle list built from one class: it hits
`(j, c)` exactly when `j` is in the list. -/
theorem parityCount_map_self (c : String) (j : Nat) :
    ∀ (l : List Nat), l.Nodup →
      parityCount j c (l.map (fun o => (o, c))) = decide (j ∈ l) := by
  intro l
  induction l with
  | nil => intro _; simp [parityCount]
  | cons a l ih =>
      intro h
      rcases List.nodup_cons.mp h with ⟨ha, hl⟩
      rw [List.map_cons]
      have h1 : parityCount j c ((a, c) :: l.map (fun o => (o, c)))
          = Bool.xor (decide (j = a) && decide (c = c))
              (parityCount j c (l.map (fun o => (o, c)))) := rfl
      rw [h1, ih hl]
      by_cases hja : j = a
      · subst hja
        simp [ha]
      · simp [hja, List.mem_cons]

/-- The identities a query-by-attribute returns are duplicate-free on a
duplicate-free document. -/
theorem queryAll_map_eid_nodup (p : Page)
    (hN : (p.elements.map (fun el => el.eid)).Nodup) (n v : String) :
    ((p.queryAllByAttr n v).map (fun el => el.eid)).Nodup := by
  unfold Page.queryAllByAttr
  exact List.Nodup.sublist (List.Sublist.map _ (List.filter_sublist _)) hN

/-- The other-toggle identities are duplicate-free on a duplicate-free
document. -/
theorem othersOf_nodup (p : Page)
    (hN : (p.elements.map (fun el => el.eid)).Nodup) (i : Nat) :
    (Toggle.othersOf p i).Nodup := by
  unfold Toggle.othersOf
  cases p.find? i with
  | none => exact List.nodup_nil
  | some e =>
      dsimp only
      unfold Toggle.getOthers
      by_cases hh : e.hasAttr "href" = true
      · rw [if_pos hh]
        exact queryAll_map_eid_nodup p hN _ _
      · rw [if_neg hh]
        by_cases hac : e.hasAttr "aria-controls" = true
        · rw [if_pos hac]
          exact queryAll_map_eid_nodup p hN _ _
        · rw [if_neg hac]
          exact List.nodup_nil

/-- Every other-toggle identity belongs to an element of the document. -/
theorem othersOf_mem_isSome (p : Page) (i o : Nat)
    (ho : o ∈ Toggle.othersOf p i) : (p.find? o).isSome = true := by
  unfold Toggle.othersOf at ho
  have hmem : ∀ (n v : String),
      o ∈ (p.queryAllByAttr n v).map (fun el => el.eid) →
        (p.find? o).isSome = true := by
    intro n v hq
    rw [List.mem_map] at hq
    rcases hq with ⟨el, hel, helq⟩
    unfold Page.queryAllByAttr at hel
    rw [List.mem_filter] at hel
    unfold Page.find?
    rw [List.find?_isSome]
    exact ⟨el, hel.1, by simp [helq]⟩
  cases hf : p.find? i with
  | none =>
      rw [hf] at ho
      simp at ho
  | some e =>
      rw [hf] at ho
      dsimp only at ho
      unfold Toggle.getOthers at ho
      by_cases hh : e.hasAttr "href" = true
      · rw [if_pos hh] at ho
        exact hmem _ _ ho
      · rw [if_neg hh] at ho
        by_cases hac : e.hasAttr "aria-controls" = true
        · rw [if_pos hac] at ho
          exact hmem _ _ ho
        · rw [if_neg hac] at ho
          simp at ho

/-- Concrete page for the C8 counterexample: two anchors controlling the
same panel, but only the second one currently active. -/
def c8Page : Page :=
  { elements :=
      [ { eid := 0, tag := "A"
        , attrs := fun n => if n = "href" then some "#p" else none
        , classes := fun _ => false }
      , { eid := 1, tag := "A"
        , attrs := fun n => if n = "href" then some "#p" else none
        , classes := fun c => c = "active" }
      , { eid := 2, tag := "DIV"
        , attrs := fun n => if n = "id" then some "p" else none
        , classes := fun _ => false } ]
  , hash := ""
  , focused := none }

/-- C8 counterexample: both anchors are in the others set of trigger 0,
yet after one transition fired from trigger 0 their `active` memberships
differ (each membership flipped, and they started out different). -/
theorem others_not_identical_counterexample :
    (0 ∈ Toggle.othersOf c8Page 0) ∧ (1 ∈ Toggle.othersOf c8Page 0) ∧
      (Toggle.elementToggle none none none freshInst c8Page 0 2 []).2.hasClassAt 0
        "active" = true ∧
      (Toggle.elementToggle none none none freshInst c8Page 0 2 []).2.hasClassAt 1
        "active" = false := by
  refine ⟨by decide, by decide, by decide, by decide⟩

/-- C8 amended: when the elements sharing the trigger's reference all
have identical `activeClass` membership before the transition, and the
target is not among them, one transition leaves them with identical
membership again (each one's membership flips exactly once). -/
theorem others_identical_after_one_toggle (inst : ToggleState) (p : Page)
    (e t : Nat) (foc : List Nat)
    (hA : inst.settings.activeClass.truthy = true)
    (hN : (p.elements.map (fun el => el.eid)).Nodup)
    (ht : t ∉ Toggle.othersOf p e)
    (hpre : ∀ o1 ∈ Toggle.othersOf p e, ∀ o2 ∈ Toggle.othersOf p e,
      p.hasClassAt o1 inst.settings.activeClass.toStr
        = p.hasClassAt o2 inst.settings.activeClass.toStr) :
    ∀ o1 ∈ Toggle.othersOf p e, ∀ o2 ∈ Toggle.othersOf p e,
      (Toggle.elementToggle none none none inst p e t foc).2.hasClassAt o1
          inst.settings.activeClass.toStr
        = (Toggle.elementToggle none none none inst p e t foc).2.hasClassAt o2
          inst.settings.activeClass.toStr := by
  set A := inst.settings.activeClass.toStr with hAdef
  have hflip : ∀ o ∈ Toggle.othersOf p e,
      (Toggle.elementToggle none none none inst p e t foc).2.hasClassAt o A
        = !(p.hasClassAt o A) := by
    intro o ho
    have hot : o ≠ t := fun h => ht (h ▸ ho)
    have hrepr : (Toggle.elementToggle none none none inst p e t foc).2
        = Toggle.elementToggleDom inst.settings none none p e t
            (Toggle.othersOf p e) foc := rfl
    rw [hrepr, hasClassAt_elementToggleDom_none, hasClassAt_applyToggles]
    have hs : (p.find? o).isSome = true := othersOf_mem_isSome p e o ho
    have hAA : decide (A = A) = true := by simp
    have hin : parityCount o A (inactiveToggles inst.settings t) = false := by
      unfold inactiveToggles
      split
      · have h1 : parityCount o A [(t, inst.settings.inactiveClass.toStr)]
            = Bool.xor (decide (o = t) && decide (A = inst.settings.inactiveClass.toStr))
                false := rfl
        rw [h1]
        simp [hot]
      · rfl
    have hact : parityCount o A (activeToggles inst.settings e t (Toggle.othersOf p e))
        = true := by
      unfold activeToggles
      rw [if_pos hA]
      rw [show inst.settings.activeClass.toStr = A from rfl]
      have hfil : ((Toggle.othersOf p e).filter (fun x => x ≠ e)).Nodup :=
        List.Nodup.filter _ (othersOf_nodup p hN e)
      have h1 : parityCount o A ((e, A) :: (t, A) ::
          ((Toggle.othersOf p e).filter (fun x => x ≠ e)).map (fun x => (x, A)))
          = Bool.xor (decide (o = e) && decide (A = A))
              (Bool.xor (decide (o = t) && decide (A = A))
                (parityCount o A
                  (((Toggle.othersOf p e).filter (fun x => x ≠ e)).map
                    (fun x => (x, A))))) := rfl
      rw [h1, parityCount_map_self A o _ hfil, hAA]
      by_cases hoe : o = e
      · subst hoe
        simp [hot, List.mem_filter]
      · simp [hoe, hot, List.mem_filter, ho]
    rw [roundToggles, parityCount_append, hact, hin, hs]
    simp
  intro o1 h1 o2 h2
  rw [hflip o1 h1, hflip o2 h2, hpre o1 h1 o2 h2]

/-- Concrete page for the C8 witness: two anchors controlling the same
panel, both inactive. -/
def c8WPage : Page :=
  { elements :=
      [ { eid := 0, tag := "A"
        , attrs := fun n => if n = "href" then some "#p" else none
        , classes := fun _ => false }
      , { eid := 1, tag := "A"
        , attrs := fun n => if n = "href" then some "#p" else none
        , classes := fun _ => false }
      , { eid := 2, tag := "DIV"
        , attrs := fun n => if n = "id" then some "p" else none
        , classes := fun _ => false } ]
  , hash := ""
  , focused := none }

/-- Witness for the amended C8 on the concrete page with two initially
inactive anchors. -/
theorem others_identical_after_one_toggle_witness :
    (Toggle.elementToggle none none none freshInst c8WPage 0 2 []).2.hasClassAt 0
        freshInst.settings.activeClass.toStr
      = (Toggle.elementToggle none none none freshInst c8WPage 0 2 []).2.hasClassAt 1
        freshInst.settings.activeClass.toStr :=
  others_identical_after_one_toggle freshInst c8WPage 0 2 [] (by decide) (by decide)
    (by decide) (by decide) 0 (by decide) 1 (by decide)

end MHFA
